import Mathlib

/-!
Verification development for the GIMP MCP server script (`src/gimp_mcp/server.py`).

The script bridges tool calls to a GIMP plugin over a TCP socket.  We give a
shallow embedding:

* `JVal` models Python's JSON-serializable values (floats are carried as their
  decimal token, since the program never computes with them, only passes them
  through);
* `printVal` / `pValF` model `json.dumps` / `json.loads` (the printer follows
  CPython's `json.dumps` defaults: separators `", "` and `": "`, `ensure_ascii`);
* `utf8EncChar` / `utf8DecodeList` model `str.encode('utf-8')` / `bytes.decode('utf-8')`;
* `St` carries the process state (the global `_gimp_connection`, its `sock`
  attribute, and a script `env` of socket-session behaviors standing for the
  remote plugin) plus instrumentation counters used only by the theorems;
* `GimpConnection.connect`, `sendCommand`, `getGimpConnection`, `callApi`,
  `getImages`, `getImageInfo`, `applyGaussianBlur` are direct translations of
  the corresponding Python functions.
-/

/-- JSON values as Python's `json` module produces them.  A float is kept as its
decimal source token (e.g. `"10.0"`): the program only moves floats around, so
the token is a faithful exact representation. -/
inductive JVal where
  | null : JVal
  | bool (b : Bool) : JVal
  | int (n : Int) : JVal
  | float (tok : String) : JVal
  | str (s : String) : JVal
  | arr (elems : List JVal) : JVal
  | obj (fields : List (String × JVal)) : JVal

/-- `leadsWith pat l` is true when `pat` is an initial run of `l`
(Python `str.startswith`). -/
def leadsWith : List Char → List Char → Bool
  | [], _ => true
  | _ :: _, [] => false
  | p :: ps, c :: cs => p == c && leadsWith ps cs

/-- `hasSub pat l` is true when `pat` occurs contiguously anywhere in `l`. -/
def hasSub : List Char → List Char → Bool
  | pat, [] => leadsWith pat []
  | pat, c :: t => leadsWith pat (c :: t) || hasSub pat t

/-- Python's `needle in haystack` on strings. -/
def pyIn (needle haystack : String) : Bool :=
  hasSub needle.data haystack.data

/-- Python's `str.startswith` on strings. -/
def pyStarts (pat s : String) : Bool :=
  leadsWith pat.data s.data

/-- Decimal digit character for `d < 10`. -/
def digitChar : Nat → Char
  | 0 => '0' | 1 => '1' | 2 => '2' | 3 => '3' | 4 => '4'
  | 5 => '5' | 6 => '6' | 7 => '7' | 8 => '8' | 9 => '9'
  | _ => '*'

/-- Fueled digit printer (structural recursion so that it computes by kernel
reduction; the fuel `n + 1` always suffices). -/
def natCharsF : Nat → Nat → List Char
  | 0, _ => []
  | fuel + 1, n =>
    if n < 10 then [digitChar n] else natCharsF fuel (n / 10) ++ [digitChar (n % 10)]

/-- Decimal digits of a natural number, most significant first (no leading
zeros; `0` prints as `"0"`). -/
def natChars (n : Nat) : List Char := natCharsF (n + 1) n

/-- Decimal form of an integer, as Python's `repr`/`json.dumps` prints it. -/
def intChars (n : Int) : List Char :=
  if n < 0 then '-' :: natChars n.natAbs else natChars n.natAbs

/-- Lowercase hexadecimal digit character for `d < 16`. -/
def hexDigit : Nat → Char
  | 0 => '0' | 1 => '1' | 2 => '2' | 3 => '3' | 4 => '4'
  | 5 => '5' | 6 => '6' | 7 => '7' | 8 => '8' | 9 => '9'
  | 10 => 'a' | 11 => 'b' | 12 => 'c' | 13 => 'd' | 14 => 'e' | 15 => 'f'
  | _ => '*'

/-- Four lowercase hex digits of `n < 0x10000` (the `XXXX` of a `\uXXXX` escape). -/
def hex4 (n : Nat) : List Char :=
  [hexDigit (n / 4096), hexDigit (n / 256 % 16), hexDigit (n / 16 % 16), hexDigit (n % 16)]

/-- `\uXXXX` escape (with a surrogate pair for astral code points), as
`json.dumps` with `ensure_ascii=True` emits it. -/
def uEsc (n : Nat) : List Char :=
  if n < 0x10000 then '\\' :: 'u' :: hex4 n
  else
    ('\\' :: 'u' :: hex4 (0xd800 + (n - 0x10000) / 0x400)) ++
      ('\\' :: 'u' :: hex4 (0xdc00 + (n - 0x10000) % 0x400))

/-- How `json.dumps` (defaults: `ensure_ascii=True`) escapes one character
inside a string literal. -/
def escChar (c : Char) : List Char :=
  if c = '"' then ['\\', '"']
  else if c = '\\' then ['\\', '\\']
  else if c = '\n' then ['\\', 'n']
  else if c = '\r' then ['\\', 'r']
  else if c = '\t' then ['\\', 't']
  else if c = '\x08' then ['\\', 'b']
  else if c = '\x0c' then ['\\', 'f']
  else if c.toNat < 0x20 || 0x7e < c.toNat then uEsc c.toNat
  else [c]

/-- Escape a whole string body. -/
def escStr : List Char → List Char
  | [] => []
  | c :: cs => escChar c ++ escStr cs

mutual
/-- The text `json.dumps` produces for a value (default separators `", "`, `": "`). -/
def printVal : JVal → List Char
  | .null => "null".data
  | .bool true => "true".data
  | .bool false => "false".data
  | .int n => intChars n
  | .float t => t.data
  | .str s => '"' :: escStr s.data ++ ['"']
  | .arr xs => '[' :: printList xs ++ [']']
  | .obj fs => '\x7b' :: printMembers fs ++ ['\x7d']

/-- Comma-separated array elements. -/
def printList : List JVal → List Char
  | [] => []
  | x :: xs => printVal x ++ printElemsTail xs

/-- `", elem"` for each remaining array element. -/
def printElemsTail : List JVal → List Char
  | [] => []
  | x :: xs => ',' :: ' ' :: (printVal x ++ printElemsTail xs)

/-- One `"key": value` member. -/
def printMember : String × JVal → List Char
  | (k, v) => '"' :: escStr k.data ++ ('"' :: ':' :: ' ' :: printVal v)

/-- Comma-separated object members. -/
def printMembers : List (String × JVal) → List Char
  | [] => []
  | kv :: kvs => printMember kv ++ printMembersTail kvs

/-- `", member"` for each remaining object member. -/
def printMembersTail : List (String × JVal) → List Char
  | [] => []
  | kv :: kvs => ',' :: ' ' :: (printMember kv ++ printMembersTail kvs)
end

/-- `json.dumps`. -/
def dumps (v : JVal) : String := String.mk (printVal v)

/-- JSON whitespace, as `json.loads` skips it. -/
def isWs (c : Char) : Bool := c == ' ' || c == '\t' || c == '\n' || c == '\r'

/-- Skip leading whitespace. -/
def skipWs (cs : List Char) : List Char := cs.dropWhile isWs

/-- Characters that can occur in a JSON number token (the maximal munch the
`json` module's number regex can consume at a number position). -/
def numChar (c : Char) : Bool :=
  c.isDigit || c == '-' || c == '+' || c == '.' || c == 'e' || c == 'E'

/-- Consume `1*DIGIT`. -/
def eatDigits1 : List Char → Option (List Char)
  | c :: r => if c.isDigit then some (r.dropWhile Char.isDigit) else none
  | [] => none

/-- Consume `int = zero / ( digit1-9 *DIGIT )` (leading zeros rejected). -/
def eatIntPart : List Char → Option (List Char)
  | [] => none
  | c :: r =>
    if c = '0' then some r
    else if c.isDigit then some (r.dropWhile Char.isDigit) else none

/-- Consume an optional `frac = "." 1*DIGIT`. -/
def eatFracPart : List Char → Option (List Char)
  | [] => some []
  | c :: r => if c = '.' then eatDigits1 r else some (c :: r)

/-- Consume an optional `exp = ("e"/"E") ["+"/"-"] 1*DIGIT`. -/
def eatExpPart : List Char → Option (List Char)
  | [] => some []
  | c :: r =>
    if c = 'e' || c = 'E' then
      match r with
      | [] => none
      | c2 :: r2 => if c2 = '+' || c2 = '-' then eatDigits1 r2 else eatDigits1 (c2 :: r2)
    else some (c :: r)

/-- Drop one optional leading minus sign. -/
def stripMinus : List Char → List Char
  | [] => []
  | c :: r => if c = '-' then r else c :: r

/-- Does a token match the JSON number grammar
`-? (0 | [1-9][0-9]*) (\.[0-9]+)? ([eE][+-]?[0-9]+)?` in full? -/
def isJsonNum (t : List Char) : Bool :=
  match eatIntPart (stripMinus t) with
  | none => false
  | some r2 =>
    match eatFracPart r2 with
    | none => false
    | some r3 =>
      match eatExpPart r3 with
      | none => false
      | some r4 => r4.isEmpty

/-- Does the token denote a float (Python's `json` yields a float exactly when
the token has a fraction or exponent part)? -/
def hasFloatChar (t : List Char) : Bool :=
  t.any (fun c => c == '.' || c == 'e' || c == 'E')

/-- Value of a digit run, most significant first. -/
def natOfDigits (t : List Char) : Nat :=
  t.foldl (fun a c => a * 10 + (c.toNat - 48)) 0

/-- Integer value of a plain decimal token. -/
def intOfTok (t : List Char) : Int :=
  match t with
  | [] => 0
  | c :: r => if c = '-' then -(natOfDigits r : Int) else (natOfDigits (c :: r) : Int)

/-- Parse a number at the head of the input, as the `json` module's scanner
does: consume the maximal run of number characters, validate it against the
number grammar, and classify it int or float. -/
def parseNum (cs : List Char) : Option (JVal × List Char) :=
  if (cs.takeWhile numChar).isEmpty then none
  else if isJsonNum (cs.takeWhile numChar) then
    if hasFloatChar (cs.takeWhile numChar) then
      some (.float (String.mk (cs.takeWhile numChar)), cs.dropWhile numChar)
    else some (.int (intOfTok (cs.takeWhile numChar)), cs.dropWhile numChar)
  else none

/-- Value of a hex digit (either case), if it is one. -/
def hexVal (c : Char) : Option Nat :=
  if c.isDigit then some (c.toNat - 48)
  else if 'a' ≤ c && c ≤ 'f' then some (c.toNat - 87)
  else if 'A' ≤ c && c ≤ 'F' then some (c.toNat - 55)
  else none

/-- The character a two-character escape `\c` denotes, if `c` is one of the
simple escapes. -/
def escDecode (c : Char) : Option Char :=
  if c = '"' then some '"'
  else if c = '\\' then some '\\'
  else if c = '/' then some '/'
  else if c = 'b' then some '\x08'
  else if c = 'f' then some '\x0c'
  else if c = 'n' then some '\n'
  else if c = 'r' then some '\r'
  else if c = 't' then some '\t'
  else none

/-- Read four hex digits into a code unit. -/
def readHex4 : List Char → Option (Nat × List Char)
  | h1 :: h2 :: h3 :: h4 :: r =>
    match hexVal h1, hexVal h2, hexVal h3, hexVal h4 with
    | some a, some b, some c, some d => some (a * 4096 + b * 256 + c * 16 + d, r)
    | _, _, _, _ => none
  | _ => none

/-- Read a `\u` escape introducer. -/
def readEscU : List Char → Option (List Char)
  | b1 :: b2 :: r => if b1 = '\\' ∧ b2 = 'u' then some r else none
  | _ => none

/-- Handle the low half of a surrogate pair: `hi` is the high surrogate
already read, the argument is the result of reading four more hex digits. -/
def afterLow (hi : Nat) : Option (Nat × List Char) → Option (Nat × List Char)
  | some q =>
    if 0xdc00 ≤ q.1 ∧ q.1 < 0xe000 then
      some (0x10000 + (hi - 0xd800) * 0x400 + (q.1 - 0xdc00), q.2)
    else none
  | none => none

/-- Continue a surrogate pair after the high half: expect `\u` and four hex
digits encoding a low surrogate. -/
def surrPair (hi : Nat) (r : List Char) : Option (Nat × List Char) :=
  match readEscU r with
  | some r2 => afterLow hi (readHex4 r2)
  | none => none

/-- Classify the first code unit of a `\uXXXX` escape: a high surrogate opens
a pair, a lone low surrogate is rejected, anything else stands alone. -/
def uStep : Option (Nat × List Char) → Option (Nat × List Char)
  | some p =>
    if 0xd800 ≤ p.1 ∧ p.1 < 0xdc00 then surrPair p.1 p.2
    else if 0xdc00 ≤ p.1 ∧ p.1 < 0xe000 then none
    else some p
  | none => none

/-- Read the scalar value of a `\uXXXX` escape after the `\u`, combining a
surrogate pair into one code point and rejecting lone surrogates, as the
`json` module does for this program's inputs. -/
def readUScalar (cs : List Char) : Option (Nat × List Char) :=
  uStep (readHex4 cs)

/-- Prepend a decoded character to the result of parsing the rest of a
string body. -/
def consOpt (ch : Char) : Option (List Char × List Char) → Option (List Char × List Char)
  | some q => some (ch :: q.1, q.2)
  | none => none

/-- Continue after a `\uXXXX` escape: `rec` parses the rest of the string
body after the escape. -/
def uCont (rec : List Char → Option (List Char × List Char)) :
    Option (Nat × List Char) → Option (List Char × List Char)
  | some p => consOpt (Char.ofNat p.1) (rec p.2)
  | none => none

/-- Continue after a simple two-character escape. -/
def escCont (rec : List Char → Option (List Char × List Char)) (r2 : List Char) :
    Option Char → Option (List Char × List Char)
  | some ch => consOpt ch (rec r2)
  | none => none

/-- Fueled body of the JSON string reader (fuel `length + 1` always suffices,
each step consuming at least one character). -/
def pStrBodyF : Nat → List Char → Option (List Char × List Char)
  | 0, _ => none
  | fuel + 1, cs =>
    match cs with
    | [] => none
    | c :: r =>
      if c = '"' then some ([], r)
      else if c = '\\' then
        match r with
        | [] => none
        | e :: r2 =>
          if e = 'u' then uCont (pStrBodyF fuel) (readUScalar r2)
          else escCont (pStrBodyF fuel) r2 (escDecode e)
      else if c.toNat < 0x20 then none
      else consOpt c (pStrBodyF fuel r)

/-- Parse the body of a JSON string after the opening quote, returning the
decoded characters and the input after the closing quote.  Handles the simple
escapes, `\uXXXX`, and surrogate pairs; raw control characters are rejected as
in the `json` module's strict mode. -/
def pStrBody (cs : List Char) : Option (List Char × List Char) :=
  pStrBodyF (cs.length + 1) cs

/-- Tag a parsed array. -/
def arrTag : Option (List JVal × List Char) → Option (JVal × List Char)
  | some p => some (.arr p.1, p.2)
  | none => none

/-- Tag a parsed object. -/
def objTag : Option (List (String × JVal) × List Char) → Option (JVal × List Char)
  | some p => some (.obj p.1, p.2)
  | none => none

/-- Tag a parsed string. -/
def strTag : Option (List Char × List Char) → Option (JVal × List Char)
  | some p => some (.str (String.mk p.1), p.2)
  | none => none

/-- Prepend a parsed element to the rest of an array. -/
def consElems (v : JVal) : Option (List JVal × List Char) → Option (List JVal × List Char)
  | some q => some (v :: q.1, q.2)
  | none => none

/-- After one array element: a comma continues the array, a bracket closes it. -/
def elemsSep (peTail : List Char → Option (List JVal × List Char)) (v : JVal) :
    List Char → Option (List JVal × List Char)
  | ',' :: r2 => consElems v (peTail r2)
  | ']' :: r2 => some ([v], r2)
  | _ => none

/-- Continue an array after parsing one element. -/
def elemsAfter (peTail : List Char → Option (List JVal × List Char)) :
    Option (JVal × List Char) → Option (List JVal × List Char)
  | some p => elemsSep peTail p.1 (skipWs p.2)
  | none => none

/-- Prepend a parsed member to the rest of an object. -/
def consMembs (k : String) (v : JVal) :
    Option (List (String × JVal) × List Char) → Option (List (String × JVal) × List Char)
  | some w => some ((k, v) :: w.1, w.2)
  | none => none

/-- After one object member: a comma continues the object, a brace closes it. -/
def membSep (pmTail : List Char → Option (List (String × JVal) × List Char)) (k : String)
    (v : JVal) : List Char → Option (List (String × JVal) × List Char)
  | ',' :: r4 => consMembs k v (pmTail r4)
  | '\x7d' :: r4 => some ([(k, v)], r4)
  | _ => none

/-- Continue an object member after parsing its value. -/
def membVal (pmTail : List Char → Option (List (String × JVal) × List Char)) (k : String) :
    Option (JVal × List Char) → Option (List (String × JVal) × List Char)
  | some q => membSep pmTail k q.1 (skipWs q.2)
  | none => none

/-- After an object key: expect a colon, then the value. -/
def membColon (pv : List Char → Option (JVal × List Char))
    (pmTail : List Char → Option (List (String × JVal) × List Char)) (k : String) :
    List Char → Option (List (String × JVal) × List Char)
  | ':' :: r2 => membVal pmTail k (pv r2)
  | _ => none

/-- Continue an object member after reading its key string. -/
def membKey (pv : List Char → Option (JVal × List Char))
    (pmTail : List Char → Option (List (String × JVal) × List Char)) :
    Option (List Char × List Char) → Option (List (String × JVal) × List Char)
  | some p => membColon pv pmTail (String.mk p.1) (skipWs p.2)
  | none => none

/-- The rest of the literal `null` after its leading `n`. -/
def kwNull : List Char → Option (JVal × List Char)
  | 'u' :: 'l' :: 'l' :: r2 => some (.null, r2)
  | _ => none

/-- The rest of the literal `true` after its leading `t`. -/
def kwTrue : List Char → Option (JVal × List Char)
  | 'r' :: 'u' :: 'e' :: r2 => some (.bool true, r2)
  | _ => none

/-- The rest of the literal `false` after its leading `f`. -/
def kwFalse : List Char → Option (JVal × List Char)
  | 'a' :: 'l' :: 's' :: 'e' :: r2 => some (.bool false, r2)
  | _ => none

/-- Dispatch on the first significant character of a JSON value, as
`json.loads`'s scanner does.  `pe` and `pm` parse array elements and object
members (the recursive occurrences at smaller fuel). -/
def pValHead (pe : List Char → Option (List JVal × List Char))
    (pm : List Char → Option (List (String × JVal) × List Char)) :
    List Char → Option (JVal × List Char)
  | [] => none
  | c :: r =>
    if c = '"' then strTag (pStrBody r)
    else if c = '[' then arrTag (pe r)
    else if c = '\x7b' then objTag (pm r)
    else if c = 'n' then kwNull r
    else if c = 't' then kwTrue r
    else if c = 'f' then kwFalse r
    else parseNum (c :: r)

/-- The element list of an array: a bracket closes it, anything else must be a
value followed by a separator. -/
def pElemsHead (pv : List Char → Option (JVal × List Char))
    (pe : List Char → Option (List JVal × List Char)) :
    List Char → Option (List JVal × List Char)
  | [] => none
  | c :: r =>
    if c = ']' then some ([], r)
    else elemsAfter pe (pv (c :: r))

/-- The member list of an object: a brace closes it, anything else must be a
quoted key, a colon, a value and a separator. -/
def pMembersHead (pv : List Char → Option (JVal × List Char))
    (pm : List Char → Option (List (String × JVal) × List Char)) :
    List Char → Option (List (String × JVal) × List Char)
  | [] => none
  | c :: r =>
    if c = '\x7d' then some ([], r)
    else if c = '"' then membKey pv pm (pStrBody r)
    else none

mutual
/-- Parse one JSON value (after optional leading whitespace), as
`json.loads`'s recursive-descent scanner does, returning the value and the
remaining input.  Fueled for structural recursion; every call consumes input
often enough that `2 * length + 2` fuel can never run out. -/
def pValF : Nat → List Char → Option (JVal × List Char)
  | 0, _ => none
  | fuel + 1, cs => pValHead (pElemsF fuel) (pMembersF fuel) (skipWs cs)

/-- Parse the elements of an array after the opening bracket, up to and
including the closing bracket. -/
def pElemsF : Nat → List Char → Option (List JVal × List Char)
  | 0, _ => none
  | fuel + 1, cs => pElemsHead (pValF fuel) (pElemsF fuel) (skipWs cs)

/-- Parse the members of an object after the opening brace, up to and
including the closing brace. -/
def pMembersF : Nat → List Char → Option (List (String × JVal) × List Char)
  | 0, _ => none
  | fuel + 1, cs => pMembersHead (pValF fuel) (pMembersF fuel) (skipWs cs)
end

/-- `json.loads` on a character sequence: one value, then only trailing
whitespace allowed.  The fuel `2 * length + 2` cannot run out (each parsing
step consumes input at least every second call). -/
def jsonLoadsChars (cs : List Char) : Option JVal :=
  match pValF (2 * cs.length + 2) cs with
  | some p => if (skipWs p.2).isEmpty then some p.1 else none
  | none => none

/-- `json.loads` on text. -/
def loads (s : String) : Option JVal := jsonLoadsChars s.data

/-- UTF-8 encoding of one unicode scalar value. -/
def utf8EncChar (n : Nat) : List Nat :=
  if n < 0x80 then [n]
  else if n < 0x800 then [0xc0 + n / 0x40, 0x80 + n % 0x40]
  else if n < 0x10000 then [0xe0 + n / 0x1000, 0x80 + n / 0x40 % 0x40, 0x80 + n % 0x40]
  else [0xf0 + n / 0x40000, 0x80 + n / 0x1000 % 0x40, 0x80 + n / 0x40 % 0x40, 0x80 + n % 0x40]

/-- UTF-8 encoding of a character sequence. -/
def utf8EncodeChars : List Char → List Nat
  | [] => []
  | c :: cs => utf8EncChar c.toNat ++ utf8EncodeChars cs

/-- Python's `str.encode('utf-8')`. -/
def utf8Encode (s : String) : List Nat := utf8EncodeChars s.data

/-- Is `b` a UTF-8 continuation byte? -/
def isCont (b : Nat) : Bool := 0x80 ≤ b && b < 0xc0

/-- Prepend the decoded scalar `v` to an already-decoded tail. -/
def uCont1 (v : Nat) : Option (List Char) → Option (List Char)
  | some cs => some (Char.ofNat v :: cs)
  | none => none

/-- Scalar value of a two-byte UTF-8 sequence. -/
def u8Val1 (b c1 : Nat) : Nat := (b - 0xc0) * 0x40 + (c1 - 0x80)

/-- Scalar value of a three-byte UTF-8 sequence. -/
def u8Val2 (b c1 c2 : Nat) : Nat := (b - 0xe0) * 0x1000 + (c1 - 0x80) * 0x40 + (c2 - 0x80)

/-- Scalar value of a four-byte UTF-8 sequence. -/
def u8Val3 (b c1 c2 c3 : Nat) : Nat :=
  (b - 0xf0) * 0x40000 + (c1 - 0x80) * 0x1000 + (c2 - 0x80) * 0x40 + (c3 - 0x80)

/-- Decode the continuation of a two-byte UTF-8 sequence headed by `b`;
`dec` decodes the rest of the input. -/
def u8Tail1 (dec : List Nat → Option (List Char)) (b : Nat) : List Nat → Option (List Char)
  | c1 :: r2 => if isCont c1 then uCont1 (u8Val1 b c1) (dec r2) else none
  | [] => none

/-- Decode the continuation of a three-byte UTF-8 sequence headed by `b`
(rejecting overlong forms and surrogates). -/
def u8Tail2 (dec : List Nat → Option (List Char)) (b : Nat) : List Nat → Option (List Char)
  | c1 :: c2 :: r2 =>
    if isCont c1 && isCont c2 then
      if u8Val2 b c1 c2 < 0x800 then none
      else if 0xd800 ≤ u8Val2 b c1 c2 ∧ u8Val2 b c1 c2 < 0xe000 then none
      else uCont1 (u8Val2 b c1 c2) (dec r2)
    else none
  | _ => none

/-- Decode the continuation of a four-byte UTF-8 sequence headed by `b`
(rejecting overlong forms and out-of-range code points). -/
def u8Tail3 (dec : List Nat → Option (List Char)) (b : Nat) : List Nat → Option (List Char)
  | c1 :: c2 :: c3 :: r2 =>
    if isCont c1 && isCont c2 && isCont c3 then
      if u8Val3 b c1 c2 c3 < 0x10000 then none
      else if 0x110000 ≤ u8Val3 b c1 c2 c3 then none
      else uCont1 (u8Val3 b c1 c2 c3) (dec r2)
    else none
  | _ => none

/-- Fueled strict UTF-8 decoder (each step consumes at least one byte, so
`length + 1` fuel always suffices). -/
def utf8DecodeF : Nat → List Nat → Option (List Char)
  | 0, _ => none
  | _ + 1, [] => some []
  | fuel + 1, b :: r =>
    if b < 0x80 then uCont1 b (utf8DecodeF fuel r)
    else if b < 0xc2 then none
    else if b < 0xe0 then u8Tail1 (utf8DecodeF fuel) b r
    else if b < 0xf0 then u8Tail2 (utf8DecodeF fuel) b r
    else if b < 0xf5 then u8Tail3 (utf8DecodeF fuel) b r
    else none

/-- Strict UTF-8 decoding of a byte list (Python's `bytes.decode('utf-8')`):
rejects overlong forms, surrogates, out-of-range code points, truncated
sequences and stray bytes. -/
def utf8DecodeList (bs : List Nat) : Option (List Char) := utf8DecodeF (bs.length + 1) bs

/-- A valid float token: a complete JSON number with a fraction or exponent
part (what `repr` of a Python float inside `json.dumps` output looks like). -/
def floatTokOk (t : String) : Bool :=
  !t.data.isEmpty && t.data.all numChar && isJsonNum t.data && hasFloatChar t.data

mutual
/-- Well-formed values: every float token is a valid float literal.  All values
decoded from JSON text are well-formed, and all values this program builds are. -/
def wfJ : JVal → Bool
  | .float t => floatTokOk t
  | .arr xs => wfList xs
  | .obj fs => wfFields fs
  | _ => true

/-- All elements well-formed. -/
def wfList : List JVal → Bool
  | [] => true
  | x :: xs => wfJ x && wfList xs

/-- All field values well-formed. -/
def wfFields : List (String × JVal) → Bool
  | [] => true
  | kv :: fs => wfJ kv.2 && wfFields fs
end

/-- `json.loads(response.decode('utf-8'))`: decode reply bytes to a value. -/
def decodeReplyBytes (bs : List Nat) : Option JVal :=
  match utf8DecodeList bs with
  | some cs => jsonLoadsChars cs
  | none => none

/-- Exception kinds that can arise in the model. -/
inductive ExcKind where
  | connectionError
  | commError
  | keyError
  | typeError
  | decodeError
deriving DecidableEq

/-- A Python exception, as far as this program observes one: its kind and its
`str(e)` text. -/
structure Exc where
  kind : ExcKind
  msg : String
deriving DecidableEq

/-- Lookup in an association list with Python-dict semantics for objects built
by `json.loads`: a later duplicate key shadows an earlier one. -/
def lookupLast (fs : List (String × JVal)) (k : String) : Option JVal :=
  match fs with
  | [] => none
  | kv :: t =>
    match lookupLast t k with
    | some v => some v
    | none => if kv.1 == k then some kv.2 else none

/-- Python's `value[key]` with a string key: a mapping lookup (`KeyError` with
`str(e) = "'key'"` when absent), a `TypeError` on any non-mapping (texts as
CPython prints them). -/
def getKey (v : JVal) (k : String) : Except Exc JVal :=
  match v with
  | .obj fs =>
    match lookupLast fs k with
    | some x => .ok x
    | none => .error ⟨.keyError, "'" ++ k ++ "'"⟩
  | .arr _ => .error ⟨.typeError, "list indices must be integers or slices, not str"⟩
  | .str _ => .error ⟨.typeError, "string indices must be integers"⟩
  | .int _ => .error ⟨.typeError, "'int' object is not subscriptable"⟩
  | .float _ => .error ⟨.typeError, "'float' object is not subscriptable"⟩
  | .bool _ => .error ⟨.typeError, "'bool' object is not subscriptable"⟩
  | .null => .error ⟨.typeError, "'NoneType' object is not subscriptable"⟩

/-- Does the mantissa of a (valid) float token carry a nonzero digit?  This is
Python truthiness of the float it denotes. -/
def floatNonzero (t : List Char) : Bool :=
  (t.takeWhile (fun c => !(c == 'e' || c == 'E'))).any (fun c => c.isDigit && !(c == '0'))

/-- Python truthiness of a JSON-serializable value (`None`, `False`, `0`,
`0.0`, `""`, `[]`, and the empty dict are falsy). -/
def jTruthy : JVal → Bool
  | .null => false
  | .bool b => b
  | .int n => n != 0
  | .float t => floatNonzero t.data
  | .str s => !s.data.isEmpty
  | .arr xs => !xs.isEmpty
  | .obj fs => !fs.isEmpty

/-- One socket session as scripted by the environment (the remote plugin and
the network): what happens at the `connect` attempt that opens it, and at the
single send/recv exchange that may follow. -/
inductive SessionBehavior where
  | connectFail (msg : String)
  | sendFail (msg : String)
  | recvFail (msg : String)
  | reply (bs : List Nat)
deriving DecidableEq

/-- A stored socket handle: either a dead socket object left behind by a
failed `connect` call (the source assigns `self.sock = socket.socket(...)`
before attempting `self.sock.connect(...)`), or a connected socket with its
scripted exchange behavior. -/
inductive SockState where
  | unconnected
  | sendFail (msg : String)
  | recvFail (msg : String)
  | reply (bs : List Nat)
deriving DecidableEq

/-- The handle state stored for a successfully opened session. -/
def toSock : SessionBehavior → SockState
  | .connectFail _ => .unconnected
  | .sendFail m => .sendFail m
  | .recvFail m => .recvFail m
  | .reply bs => .reply bs

/-- One `call_api` invocation as recorded by the instrumentation trace. -/
structure ApiCall where
  apiPath : String
  args : List JVal
  kwargs : List (String × JVal)

/-- Process state: the global `_gimp_connection` (whether it exists and its
`sock` attribute), the script of socket sessions still to come, and
instrumentation traces (counts of connect attempts and `send_command`
invocations, bytes handed to `sendall`, and `call_api` invocations).  The
traces do not influence behavior. -/
structure St where
  connExists : Bool
  sock : Option SockState
  env : List SessionBehavior
  connects : Nat
  exchanges : Nat
  sentBytes : List (List Nat)
  apiCalls : List ApiCall

/-- The message of the `ConnectionError` raised by `connect`. -/
def connectErrMsg : String :=
  "Could not connect to GIMP. Ensure the MCP Server plugin is running."

/-- `GimpConnection.connect`: return immediately if a handle is stored
(Python truthiness: any socket object, even a dead one, is truthy); otherwise
assign a fresh socket object to `self.sock` and connect it, raising a
`ConnectionError` with a fixed message if the connect attempt errors — in
which case the dead unconnected socket object stays stored.  An exhausted
session script behaves as a refused connection. -/
def GimpConnection.connect (st : St) : Except Exc Unit × St :=
  match st.sock with
  | some _ => (.ok (), st)
  | none =>
    match st.env with
    | [] =>
      (.error ⟨.connectionError, connectErrMsg⟩,
        { st with sock := some .unconnected, connects := st.connects + 1 })
    | b :: rest =>
      match b with
      | .connectFail _ =>
        (.error ⟨.connectionError, connectErrMsg⟩,
          { st with sock := some .unconnected, env := rest, connects := st.connects + 1 })
      | _ =>
        (.ok (), { st with sock := some (toSock b), env := rest, connects := st.connects + 1 })

/-- Prefix of the wrapping `Exception` raised by `send_command` on any
communication error. -/
def commErrPre : String := "Error communicating with GIMP: "

/-- Modeled `str(e)` of the `OSError` raised by `sendall` on a dead
unconnected socket (no claim depends on this text). -/
def deadSockMsg : String := "[Errno 107] Transport endpoint is not connected"

/-- Modeled `str(e)` of a `UnicodeDecodeError`/`JSONDecodeError` from decoding
a malformed reply (no claim depends on this text). -/
def decodeErrMsg : String := "Expecting value: line 1 column 1 (char 0)"

/-- `params or {}`. -/
def paramsOr : Option JVal → JVal
  | none => .obj []
  | some p => if jTruthy p then p else .obj []

/-- The bytes `send_command` hands to `sendall`:
`json.dumps({"type": command_type, "params": params or {}}).encode('utf-8')`. -/
def encodeCommand (ctype : String) (params : Option JVal) : List Nat :=
  utf8Encode (dumps (.obj [("type", .str ctype), ("params", paramsOr params)]))

/-- The `try` block of `send_command`, entered with a stored handle:
`sendall`, one `recv`, clear the handle, decode the reply with `json.loads`;
on any of these failing, clear the handle and raise a wrapping `Exception`.
`sentBytes` records the attempted send. -/
def sendCommandBody (ctype : String) (params : Option JVal) (st : St) : Except Exc JVal × St :=
  match st.sock with
  | none =>
    (.error ⟨.typeError, "'NoneType' object has no attribute 'sendall'"⟩, st)
  | some ss =>
    match ss with
    | .unconnected =>
      (.error ⟨.commError, commErrPre ++ deadSockMsg⟩,
        { st with sock := none, sentBytes := st.sentBytes ++ [encodeCommand ctype params] })
    | .sendFail m =>
      (.error ⟨.commError, commErrPre ++ m⟩,
        { st with sock := none, sentBytes := st.sentBytes ++ [encodeCommand ctype params] })
    | .recvFail m =>
      (.error ⟨.commError, commErrPre ++ m⟩,
        { st with sock := none, sentBytes := st.sentBytes ++ [encodeCommand ctype params] })
    | .reply bs =>
      match decodeReplyBytes bs with
      | some v =>
        (.ok v,
          { st with sock := none, sentBytes := st.sentBytes ++ [encodeCommand ctype params] })
      | none =>
        (.error ⟨.commError, commErrPre ++ decodeErrMsg⟩,
          { st with sock := none, sentBytes := st.sentBytes ++ [encodeCommand ctype params] })

/-- `GimpConnection.send_command`: connect if no handle is stored (a failure
there propagates, leaving the dead handle the failed `connect` stored), then
run the send/recv/decode block.  `exchanges` counts invocations. -/
def sendCommand (ctype : String) (params : Option JVal) (st0 : St) : Except Exc JVal × St :=
  match ({ st0 with exchanges := st0.exchanges + 1 } : St).sock with
  | none =>
    match GimpConnection.connect { st0 with exchanges := st0.exchanges + 1 } with
    | (.error e, st1) => (.error e, st1)
    | (.ok _, st1) => sendCommandBody ctype params st1
  | some _ => sendCommandBody ctype params { st0 with exchanges := st0.exchanges + 1 }

/-- `get_gimp_connection`: create and eagerly connect the global connection on
first use.  The global is assigned before `connect()` is called, so after a
failed first connect the global still exists (with the dead handle stored). -/
def getGimpConnection (st : St) : Except Exc Unit × St :=
  if st.connExists then (.ok (), st)
  else GimpConnection.connect { st with connExists := true, sock := none }

/-- Python `result["status"] == "success"`: a JSON value equals a Python
string only when it is that string. -/
def pyEqStr (v : JVal) (s : String) : Bool :=
  match v with
  | .str s2 => s2 == s
  | _ => false

/-- The `call_api` tool.  The whole body runs inside `try`/`except Exception`,
so any raised exception `e` becomes the return string `"Error: " + str(e)`;
the result is always a string.  `apiCalls` records the invocation. -/
def callApi (apiPath : String) (args : List JVal) (kwargs : List (String × JVal)) (st0 : St) :
    Except Exc String × St :=
  match getGimpConnection
      { st0 with apiCalls := st0.apiCalls ++ [⟨apiPath, args, kwargs⟩] } with
  | (.error e, st1) => (.ok ("Error: " ++ e.msg), st1)
  | (.ok _, st1) =>
    match sendCommand "call_api"
        (some (.obj [("api_path", .str apiPath), ("args", .arr args), ("kwargs", .obj kwargs)]))
        st1 with
    | (.error e, st2) => (.ok ("Error: " ++ e.msg), st2)
    | (.ok result, st2) =>
      match getKey result "status" with
      | .error e => (.ok ("Error: " ++ e.msg), st2)
      | .ok sv =>
        if pyEqStr sv "success" then
          match getKey result "result" with
          | .error e => (.ok ("Error: " ++ e.msg), st2)
          | .ok r => (.ok (dumps r), st2)
        else
          match getKey result "error" with
          | .error e => (.ok ("Error: " ++ e.msg), st2)
          | .ok errv => (.ok ("Error: " ++ dumps errv), st2)

/-- The `get_images` tool. -/
def getImages (st : St) : Except Exc String × St :=
  callApi "Gimp.get_images" [] [] st

/-- `json.loads(s)` as an expression that can raise. -/
def pyLoads (s : String) : Except Exc JVal :=
  match loads s with
  | some v => .ok v
  | none => .error ⟨.decodeError, decodeErrMsg⟩

/-- The `get_image_info` tool: resolve the image, return the first reply
verbatim if it contains `"Error"`, otherwise parse it and issue the width,
height and layers calls (`image_obj["id"]` is re-evaluated for each, as in the
source), combining the three returned strings into one JSON object.  Note the
body is not inside any `try`: a failing subscript or parse raises out of the
tool. -/
def getImageInfo (imageId : Int) (st : St) : Except Exc String × St :=
  match callApi "Gimp.Image.get_by_id" [.int imageId] [] st with
  | (.error e, st1) => (.error e, st1)
  | (.ok image, st1) =>
    if pyIn "Error" image then (.ok image, st1)
    else
      match pyLoads image with
      | .error e => (.error e, st1)
      | .ok imageObj =>
        match getKey imageObj "id" with
        | .error e => (.error e, st1)
        | .ok idv1 =>
          match callApi "Gimp.Image.get_width" [idv1] [] st1 with
          | (.error e, st2) => (.error e, st2)
          | (.ok w, st2) =>
            match getKey imageObj "id" with
            | .error e => (.error e, st2)
            | .ok idv2 =>
              match callApi "Gimp.Image.get_height" [idv2] [] st2 with
              | (.error e, st3) => (.error e, st3)
              | (.ok hgt, st3) =>
                match getKey imageObj "id" with
                | .error e => (.error e, st3)
                | .ok idv3 =>
                  match callApi "Gimp.Image.get_layers" [idv3] [] st3 with
                  | (.error e, st4) => (.error e, st4)
                  | (.ok lyr, st4) =>
                    (.ok (dumps (.obj
                      [("width", .str w), ("height", .str hgt), ("layers", .str lyr)])), st4)

/-- The `apply_gaussian_blur` tool (radius carried as its float token, default
`5.0`): resolve the image, then its active layer, fail-fast on an
`"Error"`-marked reply at each step, invoke the blur procedure with
`["plug-in-gauss", image_obj["id"], drawable_obj["id"], radius, radius, 0]`,
fail-fast again, then issue an unchecked flush call and return a fixed
success message.  As in the source, nothing here catches exceptions. -/
def applyGaussianBlur (imageId : Int) (radius : String) (st : St) : Except Exc String × St :=
  match callApi "Gimp.Image.get_by_id" [.int imageId] [] st with
  | (.error e, st1) => (.error e, st1)
  | (.ok image, st1) =>
    if pyIn "Error" image then (.ok image, st1)
    else
      match pyLoads image with
      | .error e => (.error e, st1)
      | .ok imageObj =>
        match getKey imageObj "id" with
        | .error e => (.error e, st1)
        | .ok imgIdv =>
          match callApi "Gimp.Image.get_active_layer" [imgIdv] [] st1 with
          | (.error e, st2) => (.error e, st2)
          | (.ok drawable, st2) =>
            if pyIn "Error" drawable then (.ok drawable, st2)
            else
              match pyLoads drawable with
              | .error e => (.error e, st2)
              | .ok drawableObj =>
                match getKey imageObj "id" with
                | .error e => (.error e, st2)
                | .ok imgIdv2 =>
                  match getKey drawableObj "id" with
                  | .error e => (.error e, st2)
                  | .ok drawIdv =>
                    match callApi "Gimp.get_pdb.run_procedure"
                        [.str "plug-in-gauss", imgIdv2, drawIdv,
                          .float radius, .float radius, .int 0] [] st2 with
                    | (.error e, st3) => (.error e, st3)
                    | (.ok result, st3) =>
                      if pyIn "Error" result then (.ok result, st3)
                      else
                        match callApi "Gimp.displays_flush" [] [] st3 with
                        | (.error e, st4) => (.error e, st4)
                        | (.ok _, st4) => (.ok "Applied Gaussian blur successfully", st4)

/-- Counterexample environment for the exchange count of `call_api`: a fresh
process whose first connect attempt is refused. -/
def cexSt1 : St := ⟨false, none, [.connectFail "refused"], 0, 0, [], []⟩

/-- Counterexample environment for totality of the convenience operations: the
remote replies success with a payload that has no `"id"` field. -/
def cexSt2 : St :=
  ⟨false, none, [.reply (utf8Encode "\x7b\"status\": \"success\", \"result\": \x7b\x7d\x7d")],
    0, 0, [], []⟩

/-- Witness state for `connect` failing: no handle stored, refused connect. -/
def witSt3 : St := ⟨false, none, [.connectFail "refused"], 0, 0, [], []⟩

/-- Witness state for `connect` succeeding. -/
def witSt3b : St := ⟨false, none, [.reply []], 0, 0, [], []⟩

/-- Counterexample state for the stored-handle claim: a refused connect. -/
def cexSt3 : St := ⟨false, none, [.connectFail "refused"], 0, 0, [], []⟩

/-- Counterexample state for the handle-discard claim: `send_command` on a
fresh-handle state whose connect attempt is refused. -/
def cexSt4 : St := ⟨true, none, [.connectFail "refused"], 0, 0, [], []⟩

/-- Witness environment for fail-fast chaining: the remote reports an error
status for the image lookup. -/
def witSt5 : St :=
  ⟨false, none, [.reply (utf8Encode "\x7b\"status\": \"error\", \"error\": \"no such image\"\x7d")],
    0, 0, [], []⟩

/-- The state after the single image-lookup call of the fail-fast witness. -/
def witSt5post : St := (callApi "Gimp.Image.get_by_id" [JVal.int 99] [] witSt5).2

/-- Scenario 3 environment: image 1 resolves to `{"id": 1}` and the width,
height and layers calls succeed with `800`, `600` and `[0]`. -/
def scnSt6 : St := ⟨false, none,
  [.reply (utf8Encode "\x7b\"status\": \"success\", \"result\": \x7b\"id\": 1\x7d\x7d"),
   .reply (utf8Encode "\x7b\"status\": \"success\", \"result\": 800\x7d"),
   .reply (utf8Encode "\x7b\"status\": \"success\", \"result\": 600\x7d"),
   .reply (utf8Encode "\x7b\"status\": \"success\", \"result\": [0]\x7d")], 0, 0, [], []⟩

/-- Scenario 4 environment: image 5 resolves, its active layer has id 7, the
blur procedure and the flush both succeed. -/
def scnSt7 : St := ⟨false, none,
  [.reply (utf8Encode "\x7b\"status\": \"success\", \"result\": \x7b\"id\": 5\x7d\x7d"),
   .reply (utf8Encode "\x7b\"status\": \"success\", \"result\": \x7b\"id\": 7\x7d\x7d"),
   .reply (utf8Encode "\x7b\"status\": \"success\", \"result\": null\x7d"),
   .reply (utf8Encode "\x7b\"status\": \"success\", \"result\": null\x7d")], 0, 0, [], []⟩

/-- Scenario 4 environment with the final flush exchange failing instead. -/
def scnSt7f : St := ⟨false, none,
  [.reply (utf8Encode "\x7b\"status\": \"success\", \"result\": \x7b\"id\": 5\x7d\x7d"),
   .reply (utf8Encode "\x7b\"status\": \"success\", \"result\": \x7b\"id\": 7\x7d\x7d"),
   .reply (utf8Encode "\x7b\"status\": \"success\", \"result\": null\x7d"),
   .sendFail "network down"], 0, 0, [], []⟩

/-- Witness environment for substring error detection: the remote succeeds
with a string payload that merely contains the word `Error`. -/
def witSt10 : St :=
  ⟨false, none,
    [.reply (utf8Encode "\x7b\"status\": \"success\", \"result\": \"An Error occurred\"\x7d")],
    0, 0, [], []⟩

/-- The state after the single image-lookup call of the substring witness. -/
def witSt10post : St := (callApi "Gimp.Image.get_by_id" [JVal.int 3] [] witSt10).2

/-- The head of the list (if any) does not satisfy `p`. -/
def headNot (p : Char → Bool) : List Char → Bool
  | [] => true
  | c :: _ => !p c

theorem takeWhile_app_all {p : Char → Bool} :
    ∀ {a b : List Char}, (∀ c ∈ a, p c = true) → headNot p b = true →
      (a ++ b).takeWhile p = a
  | [], b, _, hb => by
    cases b with
    | nil => rfl
    | cons c t =>
      simp only [headNot, Bool.not_eq_true'] at hb
      simp [List.takeWhile_cons, hb]
  | c :: a, b, ha, hb => by
    have hc : p c = true := ha c (by simp)
    simp only [List.cons_append, List.takeWhile_cons, hc, if_true]
    rw [takeWhile_app_all (fun x hx => ha x (by simp [hx])) hb]

theorem dropWhile_app_all {p : Char → Bool} :
    ∀ {a b : List Char}, (∀ c ∈ a, p c = true) → headNot p b = true →
      (a ++ b).dropWhile p = b
  | [], b, _, hb => by
    cases b with
    | nil => rfl
    | cons c t =>
      simp only [headNot, Bool.not_eq_true'] at hb
      simp [List.dropWhile_cons, hb]
  | c :: a, b, ha, hb => by
    have hc : p c = true := ha c (by simp)
    simp only [List.cons_append, List.dropWhile_cons, hc, if_true]
    exact dropWhile_app_all (fun x hx => ha x (by simp [hx])) hb

theorem digitChar_isDigit {d : Nat} (h : d < 10) : (digitChar d).isDigit = true := by
  interval_cases d <;> rfl

theorem digitChar_toNat {d : Nat} (h : d < 10) : (digitChar d).toNat = 48 + d := by
  interval_cases d <;> rfl

theorem digitChar_ne_zero {d : Nat} (h0 : 0 < d) (h : d < 10) : digitChar d ≠ '0' := by
  interval_cases d <;> decide

theorem digitChar_ne_minus {d : Nat} (h : d < 10) : digitChar d ≠ '-' := by
  interval_cases d <;> decide

theorem digit_ne_minus {c : Char} (h : c.isDigit = true) : c ≠ '-' := by
  rintro rfl
  exact absurd h (by decide)

theorem natCharsF_congr : ∀ f1 f2 n, n < f1 → n < f2 → natCharsF f1 n = natCharsF f2 n := by
  intro f1
  induction f1 with
  | zero => omega
  | succ f ih =>
    intro f2 n h1 h2
    cases f2 with
    | zero => omega
    | succ f2a =>
      rw [natCharsF, natCharsF]
      by_cases h : n < 10
      · rw [if_pos h, if_pos h]
      · rw [if_neg h, if_neg h, ih f2a (n / 10) (by omega) (by omega)]

theorem natChars_eq (n : Nat) :
    natChars n = if n < 10 then [digitChar n] else natChars (n / 10) ++ [digitChar (n % 10)] := by
  rw [natChars, natCharsF]
  by_cases h : n < 10
  · rw [if_pos h, if_pos h]
  · rw [if_neg h, if_neg h, natChars,
      natCharsF_congr n (n / 10 + 1) (n / 10) (by omega) (by omega)]

theorem natChars_ne_nil (n : Nat) : natChars n ≠ [] := by
  rw [natChars_eq]
  split <;> simp

theorem natChars_all_digit (n : Nat) : ∀ c ∈ natChars n, c.isDigit = true := by
  induction n using Nat.strong_induction_on with
  | _ n ih =>
    rw [natChars_eq]
    split
    · next h =>
      intro c hc
      rw [List.mem_singleton] at hc
      subst hc
      exact digitChar_isDigit h
    · next h =>
      intro c hc
      rcases List.mem_append.mp hc with h1 | h2
      · exact ih (n / 10) (by omega) c h1
      · rw [List.mem_singleton] at h2
        subst h2
        exact digitChar_isDigit (Nat.mod_lt _ (by omega))

theorem natOfDigits_append_one (a : List Char) (c : Char) :
    natOfDigits (a ++ [c]) = natOfDigits a * 10 + (c.toNat - 48) := by
  simp [natOfDigits, List.foldl_append]

theorem natOfDigits_natChars (n : Nat) : natOfDigits (natChars n) = n := by
  induction n using Nat.strong_induction_on with
  | _ n ih =>
    rw [natChars_eq]
    split
    · next h => simp [natOfDigits, digitChar_toNat h]
    · next h =>
      rw [natOfDigits_append_one, ih (n / 10) (by omega),
        digitChar_toNat (Nat.mod_lt _ (by omega))]
      omega

theorem natChars_head (n : Nat) :
    ∃ c t, natChars n = c :: t ∧ c.isDigit = true ∧ (n ≠ 0 → c ≠ '0') := by
  induction n using Nat.strong_induction_on with
  | _ n ih =>
    rw [natChars_eq]
    split
    · next h =>
      exact ⟨digitChar n, [], rfl, digitChar_isDigit h,
        fun hn => digitChar_ne_zero (by omega) h⟩
    · next h =>
      obtain ⟨c, t, heq, hd, hz⟩ := ih (n / 10) (by omega)
      exact ⟨c, t ++ [digitChar (n % 10)], by rw [heq]; rfl, hd, fun _ => hz (by omega)⟩

theorem digit_not_floatChar {c : Char} (h : c.isDigit = true) :
    (c == '.' || c == 'e' || c == 'E') = false := by
  simp only [Bool.or_eq_false_iff, beq_eq_false_iff_ne]
  refine ⟨⟨?_, ?_⟩, ?_⟩ <;> rintro rfl <;> exact absurd h (by decide)

theorem digit_numChar {c : Char} (h : c.isDigit = true) : numChar c = true := by
  simp [numChar, h]

theorem minus_numChar : numChar '-' = true := by decide

theorem intChars_all_numChar (n : Int) : ∀ c ∈ intChars n, numChar c = true := by
  intro c hc
  rw [intChars] at hc
  split at hc
  · rcases List.mem_cons.mp hc with rfl | h2
    · exact minus_numChar
    · exact digit_numChar (natChars_all_digit _ c h2)
  · exact digit_numChar (natChars_all_digit _ c hc)

theorem stripMinus_cons_of_ne {c : Char} {r : List Char} (h : c ≠ '-') :
    stripMinus (c :: r) = c :: r := by
  simp [stripMinus, h]

theorem dropWhile_all_digit {t : List Char} (h : ∀ c ∈ t, c.isDigit = true) :
    t.dropWhile Char.isDigit = [] :=
  List.dropWhile_eq_nil_iff.mpr h

theorem eatIntPart_natChars (n : Nat) : eatIntPart (natChars n) = some [] := by
  obtain ⟨c, t, heq, hd, hz⟩ := natChars_head n
  have ht : ∀ x ∈ t, x.isDigit = true := fun x hx =>
    natChars_all_digit n x (by rw [heq]; simp [hx])
  rcases Nat.eq_zero_or_pos n with rfl | hn
  · rfl
  · rw [heq, eatIntPart, if_neg (hz (by omega)), if_pos hd, dropWhile_all_digit ht]

theorem isJsonNum_intChars (n : Int) : isJsonNum (intChars n) = true := by
  obtain ⟨c, t, heq, hd, _⟩ := natChars_head n.natAbs
  have hstrip : stripMinus (intChars n) = natChars n.natAbs := by
    rw [intChars]
    split
    · rfl
    · rw [heq, stripMinus_cons_of_ne (digit_ne_minus hd)]
  rw [isJsonNum, hstrip, eatIntPart_natChars]
  rfl

theorem hasFloatChar_intChars (n : Int) : hasFloatChar (intChars n) = false := by
  rw [hasFloatChar, List.any_eq_false]
  intro c hc
  rw [intChars] at hc
  have hcd : c = '-' ∨ c.isDigit = true := by
    split at hc
    · rcases List.mem_cons.mp hc with rfl | h2
      · exact Or.inl rfl
      · exact Or.inr (natChars_all_digit _ c h2)
    · exact Or.inr (natChars_all_digit _ c hc)
  rcases hcd with rfl | hd
  · decide
  · simp [digit_not_floatChar hd]

theorem intChars_ne_nil (n : Int) : intChars n ≠ [] := by
  rw [intChars]
  split
  · simp
  · exact natChars_ne_nil _

theorem intOfTok_intChars (n : Int) : intOfTok (intChars n) = n := by
  obtain ⟨c, t, heq, hd, _⟩ := natChars_head n.natAbs
  rw [intChars]
  split
  · next h =>
    have hred : intOfTok ('-' :: natChars n.natAbs) =
        -(natOfDigits (natChars n.natAbs) : Int) := rfl
    rw [hred, natOfDigits_natChars]
    omega
  · next h =>
    rw [heq]
    have hred : intOfTok (c :: t) =
        if c = '-' then -(natOfDigits t : Int) else (natOfDigits (c :: t) : Int) := rfl
    rw [hred, if_neg (digit_ne_minus hd), ← heq, natOfDigits_natChars]
    omega

theorem parseNum_print_int (n : Int) (rest : List Char) (hr : headNot numChar rest = true) :
    parseNum (intChars n ++ rest) = some (.int n, rest) := by
  rw [parseNum, takeWhile_app_all (intChars_all_numChar n) hr,
    dropWhile_app_all (intChars_all_numChar n) hr]
  rw [if_neg (by simp [List.isEmpty_iff, intChars_ne_nil n]),
    if_pos (isJsonNum_intChars n), if_neg (by simp [hasFloatChar_intChars n]),
    intOfTok_intChars]

theorem parseNum_print_float (tok : String) (rest : List Char)
    (hw : floatTokOk tok = true) (hr : headNot numChar rest = true) :
    parseNum (tok.data ++ rest) = some (.float tok, rest) := by
  rw [floatTokOk] at hw
  simp only [Bool.and_eq_true, Bool.not_eq_true', List.all_eq_true] at hw
  obtain ⟨⟨⟨hne, hall⟩, hnum⟩, hfl⟩ := hw
  rw [parseNum, takeWhile_app_all hall hr, dropWhile_app_all hall hr,
    if_neg (by simp [hne]), if_pos hnum, if_pos hfl]

theorem skipWs_cons_not_ws {c : Char} (h : isWs c = false) (r : List Char) :
    skipWs (c :: r) = c :: r := by
  simp [skipWs, List.dropWhile_cons, h]

theorem skipWs_cons_ws {c : Char} (h : isWs c = true) (r : List Char) :
    skipWs (c :: r) = skipWs r := by
  simp [skipWs, List.dropWhile_cons, h]

theorem pValF_congr {cs1 cs2 : List Char} (h : skipWs cs1 = skipWs cs2) (fuel : Nat) :
    pValF fuel cs1 = pValF fuel cs2 := by
  cases fuel with
  | zero => rfl
  | succ f => rw [pValF, pValF, h]

theorem pElemsF_congr {cs1 cs2 : List Char} (h : skipWs cs1 = skipWs cs2) (fuel : Nat) :
    pElemsF fuel cs1 = pElemsF fuel cs2 := by
  cases fuel with
  | zero => rfl
  | succ f => rw [pElemsF, pElemsF, h]

theorem pMembersF_congr {cs1 cs2 : List Char} (h : skipWs cs1 = skipWs cs2) (fuel : Nat) :
    pMembersF fuel cs1 = pMembersF fuel cs2 := by
  cases fuel with
  | zero => rfl
  | succ f => rw [pMembersF, pMembersF, h]

theorem hexVal_hexDigit {d : Nat} (h : d < 16) : hexVal (hexDigit d) = some d := by
  interval_cases d <;> rfl

theorem char_valid_nat (c : Char) : c.toNat < 0xd800 ∨ (0xdfff < c.toNat ∧ c.toNat < 0x110000) :=
  c.valid


theorem readHex4_hex4 {n : Nat} (h : n < 0x10000) (rest : List Char) :
    readHex4 (hex4 n ++ rest) = some (n, rest) := by
  have h1 : n / 4096 < 16 := by omega
  have h2 : n / 256 % 16 < 16 := by omega
  have h3 : n / 16 % 16 < 16 := by omega
  have h4 : n % 16 < 16 := by omega
  have hcode : n / 4096 * 4096 + n / 256 % 16 * 256 + n / 16 % 16 * 16 + n % 16 = n := by
    omega
  simp only [hex4, List.cons_append, List.nil_append, readHex4,
    hexVal_hexDigit h1, hexVal_hexDigit h2, hexVal_hexDigit h3, hexVal_hexDigit h4]
  rw [hcode]

theorem uStep_some (m : Nat) (r0 : List Char) :
    uStep (some (m, r0)) =
      if 0xd800 ≤ m ∧ m < 0xdc00 then surrPair m r0
      else if 0xdc00 ≤ m ∧ m < 0xe000 then none
      else some (m, r0) := rfl

theorem surrPair_cons (hi : Nat) (L : List Char) :
    surrPair hi ('\\' :: 'u' :: L) = afterLow hi (readHex4 L) := rfl

theorem afterLow_some (hi m : Nat) (r0 : List Char) :
    afterLow hi (some (m, r0)) =
      if 0xdc00 ≤ m ∧ m < 0xe000 then
        some (0x10000 + (hi - 0xd800) * 0x400 + (m - 0xdc00), r0)
      else none := rfl

theorem readUScalar_single {n : Nat} (hlt : n < 0x10000) (hval : n < 0xd800 ∨ 0xdfff < n)
    (rest : List Char) : readUScalar (hex4 n ++ rest) = some (n, rest) := by
  have hs1 : ¬(0xd800 ≤ n ∧ n < 0xdc00) := by rcases hval with h | h <;> omega
  have hs2 : ¬(0xdc00 ≤ n ∧ n < 0xe000) := by rcases hval with h | h <;> omega
  rw [readUScalar, readHex4_hex4 hlt, uStep_some, if_neg hs1, if_neg hs2]

theorem readUScalar_pair {n : Nat} (hge : 0x10000 ≤ n) (hlt : n < 0x110000)
    (rest : List Char) :
    readUScalar (hex4 (0xd800 + (n - 0x10000) / 0x400) ++
      ('\\' :: 'u' :: (hex4 (0xdc00 + (n - 0x10000) % 0x400) ++ rest))) = some (n, rest) := by
  have hhi : 0xd800 + (n - 0x10000) / 0x400 < 0x10000 := by omega
  have hlo : 0xdc00 + (n - 0x10000) % 0x400 < 0x10000 := by omega
  have hsurr : 0xd800 ≤ 0xd800 + (n - 0x10000) / 0x400 ∧
      0xd800 + (n - 0x10000) / 0x400 < 0xdc00 := by omega
  have hlow : 0xdc00 ≤ 0xdc00 + (n - 0x10000) % 0x400 ∧
      0xdc00 + (n - 0x10000) % 0x400 < 0xe000 := by omega
  have hcomb : 0x10000 + (0xd800 + (n - 0x10000) / 0x400 - 0xd800) * 0x400 +
      (0xdc00 + (n - 0x10000) % 0x400 - 0xdc00) = n := by omega
  rw [readUScalar, readHex4_hex4 hhi, uStep_some, if_pos hsurr, surrPair_cons,
    readHex4_hex4 hlo, afterLow_some, if_pos hlow, hcomb]
theorem consOpt_some (ch : Char) (a b : List Char) :
    consOpt ch (some (a, b)) = some (ch :: a, b) := rfl

theorem uCont_some (rec : List Char → Option (List Char × List Char)) (m : Nat)
    (r0 : List Char) : uCont rec (some (m, r0)) = consOpt (Char.ofNat m) (rec r0) := rfl

theorem escCont_some (rec : List Char → Option (List Char × List Char)) (r2 : List Char)
    (ch : Char) : escCont rec r2 (some ch) = consOpt ch (rec r2) := rfl

theorem pStrBodyF_u (fuel : Nat) (L : List Char) :
    pStrBodyF (fuel + 1) ('\\' :: 'u' :: L) = uCont (pStrBodyF fuel) (readUScalar L) := rfl

theorem pStrBodyF_quote (fuel : Nat) (r : List Char) :
    pStrBodyF (fuel + 1) ('"' :: r) = some ([], r) := rfl

theorem pStrBodyF_esc (fuel : Nat) (e : Char) (he : ¬e = 'u') (r2 : List Char) :
    pStrBodyF (fuel + 1) ('\\' :: e :: r2) = escCont (pStrBodyF fuel) r2 (escDecode e) := by
  show (if ('\\' : Char) = '"' then some ([], e :: r2)
    else if ('\\' : Char) = '\\' then
      if e = 'u' then uCont (pStrBodyF fuel) (readUScalar r2)
      else escCont (pStrBodyF fuel) r2 (escDecode e)
    else if '\\'.toNat < 0x20 then none
    else consOpt '\\' (pStrBodyF fuel (e :: r2))) =
    escCont (pStrBodyF fuel) r2 (escDecode e)
  rw [if_neg (by decide), if_pos rfl, if_neg he]

theorem pStrBodyF_plain (fuel : Nat) {c : Char} (h1 : ¬c = '"') (h2 : ¬c = '\\')
    (h3 : ¬c.toNat < 0x20) (r : List Char) :
    pStrBodyF (fuel + 1) (c :: r) = consOpt c (pStrBodyF fuel r) := by
  show (if c = '"' then some ([], r)
    else if c = '\\' then
      match r with
      | [] => none
      | e :: r2 =>
        if e = 'u' then uCont (pStrBodyF fuel) (readUScalar r2)
        else escCont (pStrBodyF fuel) r2 (escDecode e)
    else if c.toNat < 0x20 then none
    else consOpt c (pStrBodyF fuel r)) = consOpt c (pStrBodyF fuel r)
  rw [if_neg h1, if_neg h2, if_neg h3]

theorem pStrBodyF_escChar {c : Char} {suffix cont1 cont2 : List Char} {fuel : Nat}
    (hrec : pStrBodyF fuel suffix = some (cont1, cont2)) :
    pStrBodyF (fuel + 1) (escChar c ++ suffix) = some (c :: cont1, cont2) := by
  by_cases h1 : c = '"'
  · subst h1
    show pStrBodyF (fuel + 1) ('\\' :: '"' :: suffix) = _
    rw [pStrBodyF_esc fuel '"' (by decide) suffix]
    rw [show escDecode '"' = some '"' from rfl, escCont_some, hrec, consOpt_some]
  by_cases h2 : c = '\\'
  · subst h2
    show pStrBodyF (fuel + 1) ('\\' :: '\\' :: suffix) = _
    rw [pStrBodyF_esc fuel '\\' (by decide) suffix]
    rw [show escDecode '\\' = some '\\' from rfl, escCont_some, hrec, consOpt_some]
  by_cases h3 : c = '\n'
  · subst h3
    show pStrBodyF (fuel + 1) ('\\' :: 'n' :: suffix) = _
    rw [pStrBodyF_esc fuel 'n' (by decide) suffix]
    rw [show escDecode 'n' = some '\n' from rfl, escCont_some, hrec, consOpt_some]
  by_cases h4 : c = '\r'
  · subst h4
    show pStrBodyF (fuel + 1) ('\\' :: 'r' :: suffix) = _
    rw [pStrBodyF_esc fuel 'r' (by decide) suffix]
    rw [show escDecode 'r' = some '\r' from rfl, escCont_some, hrec, consOpt_some]
  by_cases h5 : c = '\t'
  · subst h5
    show pStrBodyF (fuel + 1) ('\\' :: 't' :: suffix) = _
    rw [pStrBodyF_esc fuel 't' (by decide) suffix]
    rw [show escDecode 't' = some '\t' from rfl, escCont_some, hrec, consOpt_some]
  by_cases h6 : c = '\x08'
  · subst h6
    show pStrBodyF (fuel + 1) ('\\' :: 'b' :: suffix) = _
    rw [pStrBodyF_esc fuel 'b' (by decide) suffix]
    rw [show escDecode 'b' = some '\x08' from rfl, escCont_some, hrec, consOpt_some]
  by_cases h7 : c = '\x0c'
  · subst h7
    show pStrBodyF (fuel + 1) ('\\' :: 'f' :: suffix) = _
    rw [pStrBodyF_esc fuel 'f' (by decide) suffix]
    rw [show escDecode 'f' = some '\x0c' from rfl, escCont_some, hrec, consOpt_some]
  by_cases h8 : c.toNat < 0x20 || 0x7e < c.toNat
  · rw [escChar, if_neg h1, if_neg h2, if_neg h3, if_neg h4, if_neg h5, if_neg h6,
      if_neg h7, if_pos h8, uEsc]
    by_cases h9 : c.toNat < 0x10000
    · rw [if_pos h9]
      have hval : c.toNat < 0xd800 ∨ 0xdfff < c.toNat := by
        rcases char_valid_nat c with h | h
        · exact Or.inl h
        · exact Or.inr h.1
      have hsc : readUScalar (hex4 c.toNat ++ suffix) = some (c.toNat, suffix) :=
        readUScalar_single h9 hval suffix
      simp only [List.cons_append, List.append_assoc]
      rw [pStrBodyF_u, hsc, uCont_some, Char.ofNat_toNat, hrec, consOpt_some]
    · rw [if_neg h9]
      have hlt : c.toNat < 0x110000 := by
        rcases char_valid_nat c with h | h
        · omega
        · exact h.2
      have hsc : readUScalar (hex4 (0xd800 + (c.toNat - 0x10000) / 0x400) ++
          ('\\' :: 'u' :: (hex4 (0xdc00 + (c.toNat - 0x10000) % 0x400) ++ suffix))) =
          some (c.toNat, suffix) := readUScalar_pair (by omega) hlt suffix
      simp only [List.cons_append, List.append_assoc, List.nil_append]
      rw [pStrBodyF_u, hsc, uCont_some, Char.ofNat_toNat, hrec, consOpt_some]
  · rw [escChar, if_neg h1, if_neg h2, if_neg h3, if_neg h4, if_neg h5, if_neg h6,
      if_neg h7, if_neg h8]
    have h20 : ¬c.toNat < 0x20 := by
      simp only [Bool.or_eq_true, not_or, Nat.not_lt, decide_eq_true_eq] at h8
      omega
    simp only [List.cons_append, List.nil_append]
    rw [pStrBodyF_plain fuel h1 h2 h20, hrec, consOpt_some]
theorem pStrBodyF_escStr :
    ∀ (s : List Char) (rest : List Char) (fuel : Nat), s.length + 1 ≤ fuel →
      pStrBodyF fuel (escStr s ++ '"' :: rest) = some (s, rest)
  | [], rest, fuel, hf => by
    cases fuel with
    | zero => simp at hf
    | succ f =>
      simp only [escStr, List.nil_append]
      simp [pStrBodyF]
  | c :: s, rest, fuel, hf => by
    cases fuel with
    | zero => simp at hf
    | succ f =>
      have ih := pStrBodyF_escStr s rest f (by simp at hf; omega)
      simp only [escStr, List.append_assoc]
      exact pStrBodyF_escChar ih

theorem escStr_length_ge (s : List Char) : s.length ≤ (escStr s).length := by
  induction s with
  | nil => simp [escStr]
  | cons c t ih =>
    have : 1 ≤ (escChar c).length := by
      rw [escChar]
      repeat' split
      all_goals first
        | simp
        | (rw [uEsc]; split <;> simp [hex4])
    simp only [escStr, List.length_append, List.length_cons]
    omega

theorem pStrBody_escStr (s : List Char) (rest : List Char) :
    pStrBody (escStr s ++ '"' :: rest) = some (s, rest) := by
  rw [pStrBody]
  apply pStrBodyF_escStr
  have := escStr_length_ge s
  simp only [List.length_append, List.length_cons]
  omega

theorem pValHead_quote (pe : List Char → Option (List JVal × List Char))
    (pm : List Char → Option (List (String × JVal) × List Char)) (r : List Char) :
    pValHead pe pm ('"' :: r) = strTag (pStrBody r) := rfl

theorem pValHead_lbrack (pe : List Char → Option (List JVal × List Char))
    (pm : List Char → Option (List (String × JVal) × List Char)) (r : List Char) :
    pValHead pe pm ('[' :: r) = arrTag (pe r) := rfl

theorem pValHead_lbrace (pe : List Char → Option (List JVal × List Char))
    (pm : List Char → Option (List (String × JVal) × List Char)) (r : List Char) :
    pValHead pe pm ('\x7b' :: r) = objTag (pm r) := rfl

theorem pValHead_null (pe : List Char → Option (List JVal × List Char))
    (pm : List Char → Option (List (String × JVal) × List Char)) (r : List Char) :
    pValHead pe pm ('n' :: 'u' :: 'l' :: 'l' :: r) = some (.null, r) := rfl

theorem pValHead_true (pe : List Char → Option (List JVal × List Char))
    (pm : List Char → Option (List (String × JVal) × List Char)) (r : List Char) :
    pValHead pe pm ('t' :: 'r' :: 'u' :: 'e' :: r) = some (.bool true, r) := rfl

theorem pValHead_false (pe : List Char → Option (List JVal × List Char))
    (pm : List Char → Option (List (String × JVal) × List Char)) (r : List Char) :
    pValHead pe pm ('f' :: 'a' :: 'l' :: 's' :: 'e' :: r) = some (.bool false, r) := rfl

theorem pValHead_num {c : Char} (h : numChar c = true)
    (pe : List Char → Option (List JVal × List Char))
    (pm : List Char → Option (List (String × JVal) × List Char)) (r : List Char) :
    pValHead pe pm (c :: r) = parseNum (c :: r) := by
  have h1 : ¬(c = '"') := fun e => by subst e; exact absurd h (by decide)
  have h2 : ¬(c = '[') := fun e => by subst e; exact absurd h (by decide)
  have h3 : ¬(c = '\x7b') := fun e => by subst e; exact absurd h (by decide)
  have h4 : ¬(c = 'n') := fun e => by subst e; exact absurd h (by decide)
  have h5 : ¬(c = 't') := fun e => by subst e; exact absurd h (by decide)
  have h6 : ¬(c = 'f') := fun e => by subst e; exact absurd h (by decide)
  rw [pValHead, if_neg h1, if_neg h2, if_neg h3, if_neg h4, if_neg h5, if_neg h6]

theorem pElemsHead_close (pv : List Char → Option (JVal × List Char))
    (pe : List Char → Option (List JVal × List Char)) (r : List Char) :
    pElemsHead pv pe (']' :: r) = some ([], r) := rfl

theorem pElemsHead_cons {c : Char} (h : c ≠ ']')
    (pv : List Char → Option (JVal × List Char))
    (pe : List Char → Option (List JVal × List Char)) (r : List Char) :
    pElemsHead pv pe (c :: r) = elemsAfter pe (pv (c :: r)) := by
  rw [pElemsHead, if_neg h]

theorem pMembersHead_close (pv : List Char → Option (JVal × List Char))
    (pm : List Char → Option (List (String × JVal) × List Char)) (r : List Char) :
    pMembersHead pv pm ('\x7d' :: r) = some ([], r) := rfl

theorem pMembersHead_quote (pv : List Char → Option (JVal × List Char))
    (pm : List Char → Option (List (String × JVal) × List Char)) (r : List Char) :
    pMembersHead pv pm ('"' :: r) = membKey pv pm (pStrBody r) := rfl

theorem arrTag_some (xs : List JVal) (rest : List Char) :
    arrTag (some (xs, rest)) = some (.arr xs, rest) := rfl

theorem objTag_some (fs : List (String × JVal)) (rest : List Char) :
    objTag (some (fs, rest)) = some (.obj fs, rest) := rfl

theorem strTag_some (cs : List Char) (rest : List Char) :
    strTag (some (cs, rest)) = some (.str (String.mk cs), rest) := rfl

theorem consElems_some (v : JVal) (q : List JVal) (rest : List Char) :
    consElems v (some (q, rest)) = some (v :: q, rest) := rfl

theorem consMembs_some (k : String) (v : JVal) (w : List (String × JVal)) (rest : List Char) :
    consMembs k v (some (w, rest)) = some ((k, v) :: w, rest) := rfl

theorem elemsAfter_some (pe : List Char → Option (List JVal × List Char)) (v : JVal)
    (rem : List Char) : elemsAfter pe (some (v, rem)) = elemsSep pe v (skipWs rem) := rfl

theorem elemsSep_comma (pe : List Char → Option (List JVal × List Char)) (v : JVal)
    (r2 : List Char) : elemsSep pe v (',' :: r2) = consElems v (pe r2) := rfl

theorem elemsSep_close (pe : List Char → Option (List JVal × List Char)) (v : JVal)
    (r2 : List Char) : elemsSep pe v (']' :: r2) = some ([v], r2) := rfl

theorem membKey_some (pv : List Char → Option (JVal × List Char))
    (pm : List Char → Option (List (String × JVal) × List Char)) (p : List Char)
    (rest : List Char) :
    membKey pv pm (some (p, rest)) = membColon pv pm (String.mk p) (skipWs rest) := rfl

theorem membColon_colon (pv : List Char → Option (JVal × List Char))
    (pm : List Char → Option (List (String × JVal) × List Char)) (k : String)
    (r2 : List Char) : membColon pv pm k (':' :: r2) = membVal pm k (pv r2) := rfl

theorem membVal_some (pm : List Char → Option (List (String × JVal) × List Char)) (k : String)
    (v : JVal) (rem : List Char) :
    membVal pm k (some (v, rem)) = membSep pm k v (skipWs rem) := rfl

theorem membSep_comma (pm : List Char → Option (List (String × JVal) × List Char)) (k : String)
    (v : JVal) (r4 : List Char) : membSep pm k v (',' :: r4) = consMembs k v (pm r4) := rfl

theorem membSep_close (pm : List Char → Option (List (String × JVal) × List Char)) (k : String)
    (v : JVal) (r4 : List Char) : membSep pm k v ('\x7d' :: r4) = some ([(k, v)], r4) := rfl

theorem numChar_not_ws {c : Char} (h : numChar c = true) : isWs c = false := by
  cases hw : isWs c
  · rfl
  · simp only [isWs, Bool.or_eq_true, beq_iff_eq] at hw
    rcases hw with ((rfl | rfl) | rfl) | rfl <;> exact absurd h (by decide)

theorem numChar_ne_rbrack {c : Char} (h : numChar c = true) : c ≠ ']' := by
  rintro rfl
  exact absurd h (by decide)

theorem intChars_head (n : Int) : ∃ c t, intChars n = c :: t ∧ numChar c = true := by
  rw [intChars]
  split
  · exact ⟨'-', natChars n.natAbs, rfl, minus_numChar⟩
  · obtain ⟨c, t, heq, hd, _⟩ := natChars_head n.natAbs
    exact ⟨c, t, heq, digit_numChar hd⟩

theorem floatTok_head {t : String} (hw : floatTokOk t = true) :
    ∃ c tl, t.data = c :: tl ∧ numChar c = true := by
  rw [floatTokOk] at hw
  simp only [Bool.and_eq_true, Bool.not_eq_true', List.all_eq_true] at hw
  obtain ⟨⟨⟨hne, hall⟩, _⟩, _⟩ := hw
  cases hd : t.data with
  | nil => rw [hd] at hne; simp at hne
  | cons c tl => exact ⟨c, tl, rfl, hall c (by rw [hd]; exact List.mem_cons_self c tl)⟩

theorem printVal_head {v : JVal} (hw : wfJ v = true) :
    ∃ c t, printVal v = c :: t ∧ isWs c = false ∧ c ≠ ']' := by
  cases v with
  | null => exact ⟨'n', ['u', 'l', 'l'], by rw [printVal], by decide, by decide⟩
  | bool b =>
    cases b with
    | false => exact ⟨'f', ['a', 'l', 's', 'e'], by rw [printVal], by decide, by decide⟩
    | true => exact ⟨'t', ['r', 'u', 'e'], by rw [printVal], by decide, by decide⟩
  | int n =>
    obtain ⟨c, t, heq, hn⟩ := intChars_head n
    exact ⟨c, t, by rw [printVal, heq], numChar_not_ws hn, numChar_ne_rbrack hn⟩
  | float tk =>
    obtain ⟨c, tl, heq, hn⟩ := floatTok_head (by rw [wfJ] at hw; exact hw)
    exact ⟨c, tl, by rw [printVal, heq], numChar_not_ws hn, numChar_ne_rbrack hn⟩
  | str s =>
    exact ⟨'"', escStr s.data ++ ['"'], by rw [printVal, List.cons_append], by decide, by decide⟩
  | arr xs =>
    exact ⟨'[', printList xs ++ [']'], by rw [printVal, List.cons_append], by decide, by decide⟩
  | obj fs =>
    exact ⟨'\x7b', printMembers fs ++ ['\x7d'], by rw [printVal, List.cons_append], by decide,
      by decide⟩

theorem rt_all : ∀ fuel : Nat,
    (∀ v rest, wfJ v = true → headNot numChar rest = true →
      2 * (printVal v).length + 1 ≤ fuel → pValF fuel (printVal v ++ rest) = some (v, rest)) ∧
    (∀ xs rest, wfList xs = true → 2 * (printList xs).length + 2 ≤ fuel →
      pElemsF fuel (printList xs ++ ']' :: rest) = some (xs, rest)) ∧
    (∀ fs rest, wfFields fs = true → 2 * (printMembers fs).length + 2 ≤ fuel →
      pMembersF fuel (printMembers fs ++ '\x7d' :: rest) = some (fs, rest)) := by
  intro fuel
  induction fuel with
  | zero =>
    exact ⟨fun v rest _ _ hf => absurd hf (by omega),
      fun xs rest _ hf => absurd hf (by omega),
      fun fs rest _ hf => absurd hf (by omega)⟩
  | succ fuel ih =>
    obtain ⟨ihV, ihE, ihM⟩ := ih
    refine ⟨?_, ?_, ?_⟩
    · intro v rest hw hr hf
      rw [pValF]
      cases v with
      | null =>
        rw [show printVal JVal.null ++ rest = 'n' :: 'u' :: 'l' :: 'l' :: rest from rfl,
          skipWs_cons_not_ws (by decide), pValHead_null]
      | bool b =>
        cases b with
        | true =>
          rw [show printVal (JVal.bool true) ++ rest = 't' :: 'r' :: 'u' :: 'e' :: rest from rfl,
            skipWs_cons_not_ws (by decide), pValHead_true]
        | false =>
          rw [show printVal (JVal.bool false) ++ rest =
              'f' :: 'a' :: 'l' :: 's' :: 'e' :: rest from rfl,
            skipWs_cons_not_ws (by decide), pValHead_false]
      | int n =>
        obtain ⟨c, t, heq, hn⟩ := intChars_head n
        have hshape : printVal (JVal.int n) ++ rest = c :: (t ++ rest) := by
          rw [printVal, heq, List.cons_append]
        rw [hshape, skipWs_cons_not_ws (numChar_not_ws hn), pValHead_num hn]
        have h2 : c :: (t ++ rest) = intChars n ++ rest := by rw [heq, List.cons_append]
        rw [h2, parseNum_print_int n rest hr]
      | float tk =>
        have hww : floatTokOk tk = true := by rw [wfJ] at hw; exact hw
        obtain ⟨c, tl, heq, hn⟩ := floatTok_head hww
        have hshape : printVal (JVal.float tk) ++ rest = c :: (tl ++ rest) := by
          rw [printVal, heq, List.cons_append]
        rw [hshape, skipWs_cons_not_ws (numChar_not_ws hn), pValHead_num hn]
        have h2 : c :: (tl ++ rest) = tk.data ++ rest := by rw [heq, List.cons_append]
        rw [h2, parseNum_print_float tk rest hww hr]
      | str s =>
        have hshape : printVal (JVal.str s) ++ rest = '"' :: (escStr s.data ++ '"' :: rest) := by
          rw [printVal]
          simp only [List.cons_append, List.append_assoc, List.singleton_append,
            List.nil_append]
        rw [hshape, skipWs_cons_not_ws (by decide), pValHead_quote, pStrBody_escStr,
          strTag_some]
      | arr xs =>
        have hwx : wfList xs = true := by rw [wfJ] at hw; exact hw
        have hlen : (printVal (JVal.arr xs)).length = (printList xs).length + 2 := by
          rw [printVal]
          simp
        have hshape : printVal (JVal.arr xs) ++ rest = '[' :: (printList xs ++ ']' :: rest) := by
          rw [printVal]
          simp only [List.cons_append, List.append_assoc, List.singleton_append,
            List.nil_append]
        rw [hshape, skipWs_cons_not_ws (by decide), pValHead_lbrack,
          ihE xs rest hwx (by omega), arrTag_some]
      | obj fs =>
        have hwx : wfFields fs = true := by rw [wfJ] at hw; exact hw
        have hlen : (printVal (JVal.obj fs)).length = (printMembers fs).length + 2 := by
          rw [printVal]
          simp
        have hshape : printVal (JVal.obj fs) ++ rest =
            '\x7b' :: (printMembers fs ++ '\x7d' :: rest) := by
          rw [printVal]
          simp only [List.cons_append, List.append_assoc, List.singleton_append,
            List.nil_append]
        rw [hshape, skipWs_cons_not_ws (by decide), pValHead_lbrace,
          ihM fs rest hwx (by omega), objTag_some]
    · intro xs rest hwx hf
      rw [pElemsF]
      cases xs with
      | nil =>
        rw [show printList [] ++ ']' :: rest = ']' :: rest from rfl,
          skipWs_cons_not_ws (by decide), pElemsHead_close]
      | cons x tail =>
        rw [wfList] at hwx
        simp only [Bool.and_eq_true] at hwx
        obtain ⟨hwv, hwt⟩ := hwx
        obtain ⟨c, t, heq, hcws, hcrb⟩ := printVal_head hwv
        have hlen1 : (printList (x :: tail)).length =
            (printVal x).length + (printElemsTail tail).length := by
          rw [printList]
          simp
        have hshape : printList (x :: tail) ++ ']' :: rest =
            c :: (t ++ (printElemsTail tail ++ ']' :: rest)) := by
          rw [printList, heq]
          simp only [List.cons_append, List.append_assoc]
        rw [hshape, skipWs_cons_not_ws hcws, pElemsHead_cons hcrb]
        have hback : c :: (t ++ (printElemsTail tail ++ ']' :: rest)) =
            printVal x ++ (printElemsTail tail ++ ']' :: rest) := by
          rw [heq, List.cons_append]
        have hrR : headNot numChar (printElemsTail tail ++ ']' :: rest) = true := by
          cases tail with
          | nil => rfl
          | cons y t2 => rfl
        rw [hback, ihV x (printElemsTail tail ++ ']' :: rest) hwv hrR (by omega),
          elemsAfter_some]
        cases tail with
        | nil =>
          rw [show printElemsTail ([] : List JVal) ++ ']' :: rest = ']' :: rest from rfl,
            skipWs_cons_not_ws (by decide), elemsSep_close]
        | cons y t2 =>
          have hshape2 : printElemsTail (y :: t2) ++ ']' :: rest =
              ',' :: ' ' :: ((printVal y ++ printElemsTail t2) ++ ']' :: rest) := by
            rw [printElemsTail]
            simp only [List.cons_append, List.append_assoc]
          rw [hshape2, skipWs_cons_not_ws (by decide), elemsSep_comma]
          have hX : pElemsF fuel
              (' ' :: ((printVal y ++ printElemsTail t2) ++ ']' :: rest)) =
              pElemsF fuel ((printVal y ++ printElemsTail t2) ++ ']' :: rest) :=
            pElemsF_congr (skipWs_cons_ws (by decide) _) fuel
          have hback2 : printVal y ++ printElemsTail t2 = printList (y :: t2) := by
            rw [printList]
          have hlen2 : (printElemsTail (y :: t2)).length =
              (printList (y :: t2)).length + 2 := by
            rw [printElemsTail, printList]
            simp only [List.length_append, List.length_cons]
          rw [hX, hback2, ihE (y :: t2) rest hwt (by omega), consElems_some]
    · intro fs rest hwf hf
      rw [pMembersF]
      cases fs with
      | nil =>
        rw [show printMembers [] ++ '\x7d' :: rest = '\x7d' :: rest from rfl,
          skipWs_cons_not_ws (by decide), pMembersHead_close]
      | cons kv tail =>
        obtain ⟨k, v⟩ := kv
        rw [wfFields] at hwf
        simp only [Bool.and_eq_true] at hwf
        obtain ⟨hwv, hwt⟩ := hwf
        have hk : String.mk k.data = k := by cases k; rfl
        have hlen1 : (printMembers ((k, v) :: tail)).length =
            (escStr k.data).length + (printVal v).length + (printMembersTail tail).length
              + 4 := by
          rw [printMembers, printMember]
          simp only [List.length_append, List.length_cons]
          omega
        have hshape : printMembers ((k, v) :: tail) ++ '\x7d' :: rest =
            '"' :: (escStr k.data ++ '"' :: (':' :: ' ' ::
              (printVal v ++ (printMembersTail tail ++ '\x7d' :: rest)))) := by
          rw [printMembers, printMember]
          simp only [List.cons_append, List.append_assoc]
        rw [hshape, skipWs_cons_not_ws (by decide), pMembersHead_quote, pStrBody_escStr,
          membKey_some, skipWs_cons_not_ws (by decide), membColon_colon, hk]
        have hX : pValF fuel
            (' ' :: (printVal v ++ (printMembersTail tail ++ '\x7d' :: rest))) =
            pValF fuel (printVal v ++ (printMembersTail tail ++ '\x7d' :: rest)) :=
          pValF_congr (skipWs_cons_ws (by decide) _) fuel
        have hrR : headNot numChar (printMembersTail tail ++ '\x7d' :: rest) = true := by
          cases tail with
          | nil => rfl
          | cons kv2 t2 => rfl
        rw [hX, ihV v (printMembersTail tail ++ '\x7d' :: rest) hwv hrR (by omega),
          membVal_some]
        cases tail with
        | nil =>
          rw [show printMembersTail ([] : List (String × JVal)) ++ '\x7d' :: rest =
              '\x7d' :: rest from rfl,
            skipWs_cons_not_ws (by decide), membSep_close]
        | cons kv2 t2 =>
          have hshape2 : printMembersTail (kv2 :: t2) ++ '\x7d' :: rest =
              ',' :: ' ' :: ((printMember kv2 ++ printMembersTail t2) ++ '\x7d' :: rest) := by
            rw [printMembersTail]
            simp only [List.cons_append, List.append_assoc]
          rw [hshape2, skipWs_cons_not_ws (by decide), membSep_comma]
          have hX2 : pMembersF fuel
              (' ' :: ((printMember kv2 ++ printMembersTail t2) ++ '\x7d' :: rest)) =
              pMembersF fuel ((printMember kv2 ++ printMembersTail t2) ++ '\x7d' :: rest) :=
            pMembersF_congr (skipWs_cons_ws (by decide) _) fuel
          have hback2 : printMember kv2 ++ printMembersTail t2 = printMembers (kv2 :: t2) := by
            rw [printMembers]
          have hlen2 : (printMembersTail (kv2 :: t2)).length =
              (printMembers (kv2 :: t2)).length + 2 := by
            rw [printMembersTail, printMembers]
            simp only [List.length_append, List.length_cons]
          rw [hX2, hback2, ihM (kv2 :: t2) rest hwt (by omega), consMembs_some]

theorem rt_val (v : JVal) (rest : List Char) (fuel : Nat) (hw : wfJ v = true)
    (hr : headNot numChar rest = true) (hf : 2 * (printVal v).length + 1 ≤ fuel) :
    pValF fuel (printVal v ++ rest) = some (v, rest) :=
  (rt_all fuel).1 v rest hw hr hf

theorem loads_dumps {v : JVal} (hw : wfJ v = true) : loads (dumps v) = some v := by
  have h := rt_val v [] (2 * (printVal v).length + 2) hw rfl (by omega)
  rw [List.append_nil] at h
  show jsonLoadsChars (printVal v) = some v
  rw [jsonLoadsChars, h]
  rfl

theorem utf8F_rt_char (n : Nat) (hval : n < 0xd800 ∨ (0xdfff < n ∧ n < 0x110000))
    {fuel : Nat} {r : List Nat} {cs : List Char} (hcont : utf8DecodeF fuel r = some cs) :
    utf8DecodeF (fuel + 1) (utf8EncChar n ++ r) = some (Char.ofNat n :: cs) := by
  have hup : n < 0x110000 := by rcases hval with h | ⟨_, h⟩ <;> omega
  rw [utf8EncChar]
  by_cases h1 : n < 0x80
  · rw [if_pos h1, List.singleton_append, utf8DecodeF, if_pos h1, hcont, uCont1]
  · rw [if_neg h1]
    by_cases h2 : n < 0x800
    · rw [if_pos h2,
        show ([0xc0 + n / 0x40, 0x80 + n % 0x40] ++ r) =
          (0xc0 + n / 0x40) :: (0x80 + n % 0x40) :: r from rfl,
        utf8DecodeF,
        if_neg (show ¬ 0xc0 + n / 0x40 < 0x80 by omega),
        if_neg (show ¬ 0xc0 + n / 0x40 < 0xc2 by omega),
        if_pos (show 0xc0 + n / 0x40 < 0xe0 by omega),
        u8Tail1,
        if_pos (show isCont (0x80 + n % 0x40) = true by
          simp only [isCont, Bool.and_eq_true, decide_eq_true_eq]
          omega),
        show u8Val1 (0xc0 + n / 0x40) (0x80 + n % 0x40) = n by rw [u8Val1]; omega,
        hcont, uCont1]
    · rw [if_neg h2]
      by_cases h3 : n < 0x10000
      · have hsur : ¬(0xd800 ≤ u8Val2 (0xe0 + n / 0x1000) (0x80 + n / 0x40 % 0x40)
            (0x80 + n % 0x40) ∧ u8Val2 (0xe0 + n / 0x1000) (0x80 + n / 0x40 % 0x40)
            (0x80 + n % 0x40) < 0xe000) := by
          rw [u8Val2]
          rcases hval with h | ⟨h, _⟩ <;> omega
        rw [if_pos h3,
          show ([0xe0 + n / 0x1000, 0x80 + n / 0x40 % 0x40, 0x80 + n % 0x40] ++ r) =
            (0xe0 + n / 0x1000) :: (0x80 + n / 0x40 % 0x40) :: (0x80 + n % 0x40) :: r from rfl,
          utf8DecodeF,
          if_neg (show ¬ 0xe0 + n / 0x1000 < 0x80 by omega),
          if_neg (show ¬ 0xe0 + n / 0x1000 < 0xc2 by omega),
          if_neg (show ¬ 0xe0 + n / 0x1000 < 0xe0 by omega),
          if_pos (show 0xe0 + n / 0x1000 < 0xf0 by omega),
          u8Tail2,
          if_pos (show (isCont (0x80 + n / 0x40 % 0x40) && isCont (0x80 + n % 0x40)) = true by
            simp only [isCont, Bool.and_eq_true, decide_eq_true_eq]
            omega),
          if_neg (show ¬ u8Val2 (0xe0 + n / 0x1000) (0x80 + n / 0x40 % 0x40)
              (0x80 + n % 0x40) < 0x800 by rw [u8Val2]; omega),
          if_neg hsur,
          show u8Val2 (0xe0 + n / 0x1000) (0x80 + n / 0x40 % 0x40) (0x80 + n % 0x40) = n by
            rw [u8Val2]; omega,
          hcont, uCont1]
      · rw [if_neg h3,
          show ([0xf0 + n / 0x40000, 0x80 + n / 0x1000 % 0x40, 0x80 + n / 0x40 % 0x40,
              0x80 + n % 0x40] ++ r) =
            (0xf0 + n / 0x40000) :: (0x80 + n / 0x1000 % 0x40) :: (0x80 + n / 0x40 % 0x40) ::
              (0x80 + n % 0x40) :: r from rfl,
          utf8DecodeF,
          if_neg (show ¬ 0xf0 + n / 0x40000 < 0x80 by omega),
          if_neg (show ¬ 0xf0 + n / 0x40000 < 0xc2 by omega),
          if_neg (show ¬ 0xf0 + n / 0x40000 < 0xe0 by omega),
          if_neg (show ¬ 0xf0 + n / 0x40000 < 0xf0 by omega),
          if_pos (show 0xf0 + n / 0x40000 < 0xf5 by omega),
          u8Tail3,
          if_pos (show (isCont (0x80 + n / 0x1000 % 0x40) && isCont (0x80 + n / 0x40 % 0x40) &&
              isCont (0x80 + n % 0x40)) = true by
            simp only [isCont, Bool.and_eq_true, decide_eq_true_eq]
            omega),
          if_neg (show ¬ u8Val3 (0xf0 + n / 0x40000) (0x80 + n / 0x1000 % 0x40)
              (0x80 + n / 0x40 % 0x40) (0x80 + n % 0x40) < 0x10000 by rw [u8Val3]; omega),
          if_neg (show ¬ 0x110000 ≤ u8Val3 (0xf0 + n / 0x40000) (0x80 + n / 0x1000 % 0x40)
              (0x80 + n / 0x40 % 0x40) (0x80 + n % 0x40) by rw [u8Val3]; omega),
          show u8Val3 (0xf0 + n / 0x40000) (0x80 + n / 0x1000 % 0x40) (0x80 + n / 0x40 % 0x40)
              (0x80 + n % 0x40) = n by rw [u8Val3]; omega,
          hcont, uCont1]

theorem utf8F_encodeChars_rt :
    ∀ (s : List Char) (fuel : Nat), s.length < fuel →
      utf8DecodeF fuel (utf8EncodeChars s) = some s := by
  intro s
  induction s with
  | nil =>
    intro fuel hf
    cases fuel with
    | zero => omega
    | succ f => rfl
  | cons c t ih =>
    intro fuel hf
    cases fuel with
    | zero => omega
    | succ f =>
      rw [utf8EncodeChars]
      have h := utf8F_rt_char c.toNat (char_valid_nat c)
        (ih f (by simp only [List.length_cons] at hf; omega))
      rw [Char.ofNat_toNat] at h
      exact h

theorem utf8EncodeChars_len (s : List Char) : s.length ≤ (utf8EncodeChars s).length := by
  induction s with
  | nil => simp [utf8EncodeChars]
  | cons c t ih =>
    have h1 : 1 ≤ (utf8EncChar c.toNat).length := by
      rw [utf8EncChar]
      repeat' split
      all_goals simp
    rw [utf8EncodeChars]
    simp only [List.length_append, List.length_cons]
    omega

theorem utf8EncodeChars_rt (s : List Char) : utf8DecodeList (utf8EncodeChars s) = some s := by
  rw [utf8DecodeList]
  exact utf8F_encodeChars_rt s ((utf8EncodeChars s).length + 1)
    (by have := utf8EncodeChars_len s; omega)

theorem utf8_rt (s : String) : utf8DecodeList (utf8Encode s) = some s.data :=
  utf8EncodeChars_rt s.data

theorem parseNum_wf {cs : List Char} {v : JVal} {r : List Char}
    (h : parseNum cs = some (v, r)) : wfJ v = true := by
  rw [parseNum] at h
  split at h
  · exact absurd h (by simp)
  · next hne =>
    split at h
    · next hjn =>
      split at h
      · next hfl =>
        simp only [Option.some.injEq, Prod.mk.injEq] at h
        rw [← h.1]
        show floatTokOk (String.mk (cs.takeWhile numChar)) = true
        rw [floatTokOk]
        simp only [Bool.and_eq_true, Bool.not_eq_true', List.all_eq_true]
        refine ⟨⟨⟨?_, ?_⟩, hjn⟩, hfl⟩
        · simp only [Bool.not_eq_true] at hne
          exact hne
        · intro c hc
          exact List.mem_takeWhile_imp hc
      · simp only [Option.some.injEq, Prod.mk.injEq] at h
        rw [← h.1]
        rfl
    · exact absurd h (by simp)

theorem kwNull_inv {cs : List Char} {v : JVal} {r : List Char}
    (h : kwNull cs = some (v, r)) : v = JVal.null := by
  unfold kwNull at h
  split at h
  · simp only [Option.some.injEq, Prod.mk.injEq] at h
    exact h.1.symm
  · exact absurd h (by simp)

theorem kwTrue_inv {cs : List Char} {v : JVal} {r : List Char}
    (h : kwTrue cs = some (v, r)) : v = JVal.bool true := by
  unfold kwTrue at h
  split at h
  · simp only [Option.some.injEq, Prod.mk.injEq] at h
    exact h.1.symm
  · exact absurd h (by simp)

theorem kwFalse_inv {cs : List Char} {v : JVal} {r : List Char}
    (h : kwFalse cs = some (v, r)) : v = JVal.bool false := by
  unfold kwFalse at h
  split at h
  · simp only [Option.some.injEq, Prod.mk.injEq] at h
    exact h.1.symm
  · exact absurd h (by simp)

theorem wf_all : ∀ fuel : Nat,
    (∀ cs v r, pValF fuel cs = some (v, r) → wfJ v = true) ∧
    (∀ cs xs r, pElemsF fuel cs = some (xs, r) → wfList xs = true) ∧
    (∀ cs fs r, pMembersF fuel cs = some (fs, r) → wfFields fs = true) := by
  intro fuel
  induction fuel with
  | zero =>
    refine ⟨fun cs v r h => ?_, fun cs xs r h => ?_, fun cs fs r h => ?_⟩
    · rw [pValF] at h; exact absurd h (by simp)
    · rw [pElemsF] at h; exact absurd h (by simp)
    · rw [pMembersF] at h; exact absurd h (by simp)
  | succ fuel ih =>
    obtain ⟨ihV, ihE, ihM⟩ := ih
    refine ⟨?_, ?_, ?_⟩
    · intro cs v r h
      rw [pValF] at h
      cases hsk : skipWs cs with
      | nil => rw [hsk] at h; exact absurd h (by simp [pValHead])
      | cons c r0 =>
        rw [hsk, pValHead] at h
        split at h
        · cases hps : pStrBody r0 with
          | none => rw [hps] at h; simp [strTag] at h
          | some p =>
            obtain ⟨a, b⟩ := p
            rw [hps, strTag_some] at h
            simp only [Option.some.injEq, Prod.mk.injEq] at h
            rw [← h.1]
            rfl
        · split at h
          · cases hpe : pElemsF fuel r0 with
            | none => rw [hpe] at h; simp [arrTag] at h
            | some p =>
              obtain ⟨xs, b⟩ := p
              rw [hpe, arrTag_some] at h
              simp only [Option.some.injEq, Prod.mk.injEq] at h
              rw [← h.1, wfJ]
              exact ihE r0 xs b hpe
          · split at h
            · cases hpm : pMembersF fuel r0 with
              | none => rw [hpm] at h; simp [objTag] at h
              | some p =>
                obtain ⟨fs, b⟩ := p
                rw [hpm, objTag_some] at h
                simp only [Option.some.injEq, Prod.mk.injEq] at h
                rw [← h.1, wfJ]
                exact ihM r0 fs b hpm
            · split at h
              · rw [kwNull_inv h]
                rfl
              · split at h
                · rw [kwTrue_inv h]
                  rfl
                · split at h
                  · rw [kwFalse_inv h]
                    rfl
                  · exact parseNum_wf h
    · intro cs xs r h
      rw [pElemsF] at h
      cases hsk : skipWs cs with
      | nil => rw [hsk] at h; exact absurd h (by simp [pElemsHead])
      | cons c r0 =>
        rw [hsk, pElemsHead] at h
        split at h
        · simp only [Option.some.injEq, Prod.mk.injEq] at h
          rw [← h.1]
          rfl
        · cases hpv : pValF fuel (c :: r0) with
          | none => rw [hpv] at h; simp [elemsAfter] at h
          | some p =>
            obtain ⟨v1, rem⟩ := p
            rw [hpv, elemsAfter_some] at h
            unfold elemsSep at h
            split at h
            · cases hpe : pElemsF fuel _ with
              | none => rw [hpe] at h; simp [consElems] at h
              | some q =>
                obtain ⟨q1, r3⟩ := q
                rw [hpe, consElems_some] at h
                simp only [Option.some.injEq, Prod.mk.injEq] at h
                rw [← h.1, wfList]
                simp only [Bool.and_eq_true]
                exact ⟨ihV _ _ _ hpv, ihE _ _ _ hpe⟩
            · simp only [Option.some.injEq, Prod.mk.injEq] at h
              rw [← h.1, wfList]
              simp only [Bool.and_eq_true]
              exact ⟨ihV _ _ _ hpv, rfl⟩
            · exact absurd h (by simp)
    · intro cs fs r h
      rw [pMembersF] at h
      cases hsk : skipWs cs with
      | nil => rw [hsk] at h; exact absurd h (by simp [pMembersHead])
      | cons c r0 =>
        rw [hsk, pMembersHead] at h
        split at h
        · simp only [Option.some.injEq, Prod.mk.injEq] at h
          rw [← h.1]
          rfl
        · split at h
          · cases hps : pStrBody r0 with
            | none => rw [hps] at h; simp [membKey] at h
            | some p =>
              obtain ⟨kd, r1⟩ := p
              rw [hps, membKey_some] at h
              unfold membColon at h
              split at h
              · cases hpv : pValF fuel _ with
                | none => rw [hpv] at h; simp [membVal] at h
                | some q =>
                  obtain ⟨v1, rem⟩ := q
                  rw [hpv, membVal_some] at h
                  unfold membSep at h
                  split at h
                  · cases hpm : pMembersF fuel _ with
                    | none => rw [hpm] at h; simp [consMembs] at h
                    | some w =>
                      obtain ⟨w1, r4⟩ := w
                      rw [hpm, consMembs_some] at h
                      simp only [Option.some.injEq, Prod.mk.injEq] at h
                      rw [← h.1, wfFields]
                      simp only [Bool.and_eq_true]
                      exact ⟨ihV _ _ _ hpv, ihM _ _ _ hpm⟩
                  · simp only [Option.some.injEq, Prod.mk.injEq] at h
                    rw [← h.1, wfFields]
                    simp only [Bool.and_eq_true]
                    exact ⟨ihV _ _ _ hpv, rfl⟩
                  · exact absurd h (by simp)
              · exact absurd h (by simp)
          · exact absurd h (by simp)

theorem jsonLoadsChars_wf {cs : List Char} {v : JVal}
    (h : jsonLoadsChars cs = some v) : wfJ v = true := by
  unfold jsonLoadsChars at h
  split at h
  · next p hp =>
    split at h
    · simp only [Option.some.injEq] at h
      rw [← h]
      exact (wf_all _).1 cs p.1 p.2 hp
    · exact absurd h (by simp)
  · exact absurd h (by simp)

theorem decodeReplyBytes_wf {bs : List Nat} {v : JVal}
    (h : decodeReplyBytes bs = some v) : wfJ v = true := by
  unfold decodeReplyBytes at h
  split at h
  · exact jsonLoadsChars_wf h
  · exact absurd h (by simp)

theorem isJsonNum_head {c : Char} {t : List Char} (h : isJsonNum (c :: t) = true) :
    c = '-' ∨ c.isDigit = true := by
  by_cases hc : c = '-'
  · exact .inl hc
  · right
    rw [isJsonNum, show stripMinus (c :: t) = c :: t from by rw [stripMinus, if_neg hc]] at h
    split at h
    · exact absurd h (by simp)
    · next r2 heat =>
      rw [eatIntPart] at heat
      split at heat
      · next h0 => rw [h0]; decide
      · split at heat
        · next hd => exact hd
        · exact absurd heat (by simp)

theorem digit_ne_E {c : Char} (h : c.isDigit = true) : (c == 'E') = false := by
  rw [beq_eq_false_iff_ne]
  rintro rfl
  exact absurd h (by decide)

theorem intChars_head_strict (n : Int) :
    ∃ c t, intChars n = c :: t ∧ (c = '-' ∨ c.isDigit = true) := by
  rw [intChars]
  split
  · exact ⟨'-', natChars n.natAbs, rfl, .inl rfl⟩
  · obtain ⟨c, t, heq, hd, _⟩ := natChars_head n.natAbs
    exact ⟨c, t, heq, .inr hd⟩

theorem floatTokOk_isJsonNum {t : String} (hw : floatTokOk t = true) :
    isJsonNum t.data = true := by
  rw [floatTokOk] at hw
  simp only [Bool.and_eq_true] at hw
  exact hw.1.2

theorem dumps_head {v : JVal} (hw : wfJ v = true) :
    ∃ c t, printVal v = c :: t ∧ (c == 'E') = false := by
  cases v with
  | null => exact ⟨'n', ['u', 'l', 'l'], by rw [printVal], by decide⟩
  | bool b =>
    cases b with
    | false => exact ⟨'f', ['a', 'l', 's', 'e'], by rw [printVal], by decide⟩
    | true => exact ⟨'t', ['r', 'u', 'e'], by rw [printVal], by decide⟩
  | int n =>
    obtain ⟨c, t, heq, hn⟩ := intChars_head_strict n
    refine ⟨c, t, by rw [printVal, heq], ?_⟩
    rcases hn with rfl | hd
    · decide
    · exact digit_ne_E hd
  | float tk =>
    obtain ⟨c, tl, heq, _⟩ := floatTok_head hw
    have hjn : isJsonNum (c :: tl) = true := by
      rw [← heq]
      exact floatTokOk_isJsonNum hw
    refine ⟨c, tl, by rw [printVal, heq], ?_⟩
    rcases isJsonNum_head hjn with rfl | hd
    · decide
    · exact digit_ne_E hd
  | str s =>
    exact ⟨'"', escStr s.data ++ ['"'], by rw [printVal, List.cons_append], by decide⟩
  | arr xs =>
    exact ⟨'[', printList xs ++ [']'], by rw [printVal, List.cons_append], by decide⟩
  | obj fs =>
    exact ⟨'\x7b', printMembers fs ++ ['\x7d'], by rw [printVal, List.cons_append], by decide⟩

theorem dumps_not_error {v : JVal} (hw : wfJ v = true) :
    pyStarts "Error: " (dumps v) = false := by
  obtain ⟨c, t, heq, hne⟩ := dumps_head hw
  rw [pyStarts, show (dumps v).data = printVal v from rfl, heq,
    show ("Error: ").data = 'E' :: 'r' :: 'r' :: 'o' :: 'r' :: ':' :: ' ' :: [] from rfl,
    leadsWith]
  rw [show ('E' == c) = false from by
      rw [beq_eq_false_iff_ne]
      rw [beq_eq_false_iff_ne] at hne
      exact fun e => hne e.symm,
    Bool.false_and]

theorem leadsWith_append (a b : List Char) : leadsWith a (a ++ b) = true := by
  induction a with
  | nil => rfl
  | cons c t ih => rw [List.cons_append, leadsWith, ih]; simp

theorem pyStarts_append (p s : String) : pyStarts p (p ++ s) = true := by
  rw [pyStarts, String.data_append]
  exact leadsWith_append _ _

theorem paramsOr_obj (fs : List (String × JVal)) : paramsOr (some (.obj fs)) = .obj fs := by
  rw [paramsOr]
  split
  · rfl
  · next hf =>
    rcases fs with _ | ⟨a, t⟩
    · rfl
    · exact absurd rfl hf

theorem lookupLast_wf : ∀ (fs : List (String × JVal)) (k : String) (x : JVal),
    wfFields fs = true → lookupLast fs k = some x → wfJ x = true := by
  intro fs
  induction fs with
  | nil => intro k x _ h; rw [lookupLast] at h; exact absurd h (by simp)
  | cons kv t ih =>
    intro k x hw h
    rw [wfFields] at hw
    simp only [Bool.and_eq_true] at hw
    rw [lookupLast] at h
    split at h
    · next v' hlk =>
      simp only [Option.some.injEq] at h
      rw [← h]
      exact ih k v' hw.2 hlk
    · split at h
      · simp only [Option.some.injEq] at h
        rw [← h]
        exact hw.1
      · exact absurd h (by simp)

theorem getKey_wf {v : JVal} {k : String} {x : JVal} (hw : wfJ v = true)
    (h : getKey v k = .ok x) : wfJ x = true := by
  cases v with
  | obj fs =>
    rw [getKey] at h
    split at h
    · next x' hlk =>
      simp only [Except.ok.injEq] at h
      rw [← h]
      rw [wfJ] at hw
      exact lookupLast_wf fs k x' hw hlk
    · exact absurd h (by simp)
  | null => exact absurd h (by simp [getKey])
  | bool b => exact absurd h (by simp [getKey])
  | int n => exact absurd h (by simp [getKey])
  | float t => exact absurd h (by simp [getKey])
  | str s => exact absurd h (by simp [getKey])
  | arr xs => exact absurd h (by simp [getKey])

theorem fst_eq {A B : Type} {x : A × B} {a : A} {b : B} (h : x = (a, b)) : x.1 = a := by
  rw [h]

theorem snd_eq {A B : Type} {x : A × B} {a : A} {b : B} (h : x = (a, b)) : x.2 = b := by
  rw [h]

theorem connect_traces (st : St) :
    ((GimpConnection.connect st).2.apiCalls = st.apiCalls) ∧
    ((GimpConnection.connect st).2.exchanges = st.exchanges) := by
  unfold GimpConnection.connect
  (repeat' split) <;> exact ⟨rfl, rfl⟩

theorem gGC_traces (st : St) :
    ((getGimpConnection st).2.apiCalls = st.apiCalls) ∧
    ((getGimpConnection st).2.exchanges = st.exchanges) := by
  unfold getGimpConnection
  split
  · exact ⟨rfl, rfl⟩
  · exact ⟨(connect_traces _).1, (connect_traces _).2⟩

theorem body_traces (ctype : String) (params : Option JVal) (st : St) :
    ((sendCommandBody ctype params st).2.apiCalls = st.apiCalls) ∧
    ((sendCommandBody ctype params st).2.exchanges = st.exchanges) := by
  unfold sendCommandBody
  (repeat' split) <;> exact ⟨rfl, rfl⟩

theorem sendCommand_traces (ctype : String) (params : Option JVal) (st : St) :
    ((sendCommand ctype params st).2.apiCalls = st.apiCalls) ∧
    ((sendCommand ctype params st).2.exchanges = st.exchanges + 1) := by
  unfold sendCommand
  split
  · split
    · next e st1 heq =>
      have h2 := snd_eq heq
      constructor
      · show st1.apiCalls = _
        rw [← h2]
        exact (connect_traces _).1
      · show st1.exchanges = _
        rw [← h2]
        exact (connect_traces _).2
    · next u st1 heq =>
      have h2 := snd_eq heq
      constructor
      · rw [(body_traces _ _ st1).1, ← h2]
        exact (connect_traces _).1
      · rw [(body_traces _ _ st1).2, ← h2]
        exact (connect_traces _).2
  · exact ⟨(body_traces _ _ _).1, (body_traces _ _ _).2⟩

theorem callApi_apiCalls (p : String) (a : List JVal) (k : List (String × JVal)) (st : St) :
    ((callApi p a k st).2).apiCalls = st.apiCalls ++ [⟨p, a, k⟩] := by
  unfold callApi
  split
  · next e st1 heq =>
    have h2 := snd_eq heq
    show st1.apiCalls = _
    rw [← h2]
    exact (gGC_traces _).1
  · next u st1 heq =>
    have h2 := snd_eq heq
    split
    · next e st2 heq2 =>
      have h3 := snd_eq heq2
      show st2.apiCalls = _
      rw [← h3, (sendCommand_traces _ _ _).1, ← h2]
      exact (gGC_traces _).1
    · next result st2 heq2 =>
      have h3 := snd_eq heq2
      have hst2 : st2.apiCalls = st.apiCalls ++ [⟨p, a, k⟩] := by
        rw [← h3, (sendCommand_traces _ _ _).1, ← h2]
        exact (gGC_traces _).1
      (repeat' split) <;> exact hst2

theorem callApi_ok (p : String) (a : List JVal) (k : List (String × JVal)) (st : St) :
    ∃ s st1, callApi p a k st = (.ok s, st1) := by
  unfold callApi
  (repeat' split) <;> exact ⟨_, _, rfl⟩

theorem connect_err {st : St} {e : Exc} {st1 : St}
    (h : GimpConnection.connect st = (.error e, st1)) :
    e = ⟨.connectionError, connectErrMsg⟩ ∧ st1.sock = some .unconnected := by
  unfold GimpConnection.connect at h
  split at h
  · exact absurd (fst_eq h) (by simp)
  · split at h
    · have h1 := fst_eq h
      have h2 := snd_eq h
      simp only [Except.error.injEq] at h1
      exact ⟨h1.symm, by rw [← h2]⟩
    · split at h
      · have h1 := fst_eq h
        have h2 := snd_eq h
        simp only [Except.error.injEq] at h1
        exact ⟨h1.symm, by rw [← h2]⟩
      · exact absurd (fst_eq h) (by simp)

theorem connect_ok_sock {st : St} {u : Unit} {st1 : St}
    (h : GimpConnection.connect st = (.ok u, st1)) : ∃ ss, st1.sock = some ss := by
  unfold GimpConnection.connect at h
  split at h
  · next ss hsk =>
    have h2 := snd_eq h
    exact ⟨ss, by rw [← h2]; exact hsk⟩
  · split at h
    · exact absurd (fst_eq h) (by simp)
    · split at h
      · exact absurd (fst_eq h) (by simp)
      · have h2 := snd_eq h
        exact ⟨toSock _, by rw [← h2]⟩

theorem body_sock_some {ctype : String} {params : Option JVal} {st : St} {ss : SockState}
    (h : st.sock = some ss) : (sendCommandBody ctype params st).2.sock = none := by
  unfold sendCommandBody
  split
  · next heq => rw [h] at heq; exact absurd heq (by simp)
  · (repeat' split) <;> rfl

theorem sendCommandBody_ok_wf {ctype : String} {params : Option JVal} {st : St} {v : JVal}
    {st1 : St} (h : sendCommandBody ctype params st = (.ok v, st1)) : wfJ v = true := by
  unfold sendCommandBody at h
  split at h
  · exact absurd (fst_eq h) (by simp)
  · split at h
    · exact absurd (fst_eq h) (by simp)
    · exact absurd (fst_eq h) (by simp)
    · exact absurd (fst_eq h) (by simp)
    · split at h
      · next v2 hdec =>
        have h1 := fst_eq h
        simp only [Except.ok.injEq] at h1
        rw [← h1]
        exact decodeReplyBytes_wf hdec
      · exact absurd (fst_eq h) (by simp)

theorem sendCommand_ok_wf {ctype : String} {params : Option JVal} {st : St} {v : JVal}
    {st1 : St} (h : sendCommand ctype params st = (.ok v, st1)) : wfJ v = true := by
  unfold sendCommand at h
  split at h
  · split at h
    · exact absurd (fst_eq h) (by simp)
    · exact sendCommandBody_ok_wf h
  · exact sendCommandBody_ok_wf h

theorem gii_fail {imageId : Int} {st0 : St} {s : String} {st1 : St}
    (hc : callApi "Gimp.Image.get_by_id" [.int imageId] [] st0 = (.ok s, st1))
    (he : pyIn "Error" s = true) : getImageInfo imageId st0 = (.ok s, st1) := by
  unfold getImageInfo
  simp only [hc]
  rw [if_pos he]

theorem agb_fail {imageId : Int} {radius : String} {st0 : St} {s : String} {st1 : St}
    (hc : callApi "Gimp.Image.get_by_id" [.int imageId] [] st0 = (.ok s, st1))
    (he : pyIn "Error" s = true) : applyGaussianBlur imageId radius st0 = (.ok s, st1) := by
  unfold applyGaussianBlur
  simp only [hc]
  rw [if_pos he]

theorem decode_encode (ctype : String) (params : Option JVal)
    (hw : wfJ (paramsOr params) = true) :
    decodeReplyBytes (encodeCommand ctype params) =
      some (.obj [("type", .str ctype), ("params", paramsOr params)]) := by
  have hV : wfJ (JVal.obj [("type", .str ctype), ("params", paramsOr params)]) = true := by
    rw [wfJ]
    show (wfJ (JVal.str ctype) && (wfJ (paramsOr params) && true)) = true
    rw [hw]
    rfl
  have h2 := loads_dumps hV
  rw [encodeCommand, decodeReplyBytes, utf8_rt]
  exact h2

theorem pyEqStr_eq {v : JVal} {s : String} (h : pyEqStr v s = true) : v = .str s := by
  cases v with
  | str s2 =>
    rw [pyEqStr] at h
    have hs : s2 = s := by simpa using h
    rw [hs]
  | null => exact absurd h (by simp [pyEqStr])
  | bool b => exact absurd h (by simp [pyEqStr])
  | int n => exact absurd h (by simp [pyEqStr])
  | float t => exact absurd h (by simp [pyEqStr])
  | arr xs => exact absurd h (by simp [pyEqStr])
  | obj fs => exact absurd h (by simp [pyEqStr])

/-- Claim C1 (corrected): `call_api` never raises — it always returns a
string, and exactly one of the two holds: either the exchange's reply has
`status == "success"` and the returned string is precisely the JSON encoding
of the reply's `result` field (such a string never carries the `"Error: "`
prefix), or the returned string carries the `"Error: "` prefix.  It issues
exactly one exchange, except that when the initial implicit connect performed
by `get_gimp_connection` fails, it returns that connection error's message
prefixed `"Error: "` after zero exchanges (which is why the original "exactly
one Transport exchange" reading fails; see the counterexample). -/
theorem C1_callApi_shape (p : String) (a : List JVal) (k : List (String × JVal)) (st0 : St) :
    ∃ s st1, callApi p a k st0 = (.ok s, st1) ∧
      (st1.exchanges = st0.exchanges + 1 ∨
        ∃ e, getGimpConnection { st0 with apiCalls := st0.apiCalls ++ [⟨p, a, k⟩] } =
            (.error e, st1) ∧
          s = "Error: " ++ e.msg ∧ st1.exchanges = st0.exchanges) ∧
      ((∃ reply r,
          sendCommand "call_api"
              (some (.obj [("api_path", .str p), ("args", .arr a), ("kwargs", .obj k)]))
              (getGimpConnection { st0 with apiCalls := st0.apiCalls ++ [⟨p, a, k⟩] }).2 =
            (.ok reply, st1) ∧
          getKey reply "status" = .ok (.str "success") ∧
          getKey reply "result" = .ok r ∧
          s = dumps r ∧ pyStarts "Error: " s = false) ∨
        pyStarts "Error: " s = true) := by
  unfold callApi
  split
  · next e st1 heq =>
    have h2 : (getGimpConnection
        { st0 with apiCalls := st0.apiCalls ++ [⟨p, a, k⟩] }).2 = st1 := snd_eq heq
    refine ⟨_, _, rfl, .inr ⟨e, heq, rfl, ?_⟩, .inr (pyStarts_append _ _)⟩
    show st1.exchanges = st0.exchanges
    rw [← h2]
    exact (gGC_traces _).2
  · next u st1 heq =>
    have h1 : (getGimpConnection
        { st0 with apiCalls := st0.apiCalls ++ [⟨p, a, k⟩] }).2 = st1 := snd_eq heq
    split
    · next e st2 heq2 =>
      have h2 : (sendCommand "call_api" _ st1).2 = st2 := snd_eq heq2
      refine ⟨_, _, rfl, .inl ?_, .inr (pyStarts_append _ _)⟩
      rw [← h2, (sendCommand_traces _ _ _).2, ← h1, (gGC_traces _).2]
    · next result st2 heq2 =>
      have h2 : (sendCommand "call_api" _ st1).2 = st2 := snd_eq heq2
      have hexch : st2.exchanges = st0.exchanges + 1 := by
        rw [← h2, (sendCommand_traces _ _ _).2, ← h1, (gGC_traces _).2]
      have hwres : wfJ result = true := sendCommand_ok_wf heq2
      have hsc : sendCommand "call_api"
          (some (.obj [("api_path", .str p), ("args", .arr a), ("kwargs", .obj k)]))
          (getGimpConnection { st0 with apiCalls := st0.apiCalls ++ [⟨p, a, k⟩] }).2 =
          (.ok result, st2) := by
        rw [h1]
        exact heq2
      split
      · exact ⟨_, _, rfl, .inl hexch, .inr (pyStarts_append _ _)⟩
      · next sv heqk =>
        split
        · next hsv =>
          split
          · exact ⟨_, _, rfl, .inl hexch, .inr (pyStarts_append _ _)⟩
          · next r heqr =>
            have hwr : wfJ r = true := getKey_wf hwres heqr
            refine ⟨_, _, rfl, .inl hexch,
              .inl ⟨result, r, hsc, ?_, heqr, rfl, dumps_not_error hwr⟩⟩
            rw [← pyEqStr_eq hsv]
            exact heqk
        · split
          · exact ⟨_, _, rfl, .inl hexch, .inr (pyStarts_append _ _)⟩
          · exact ⟨_, _, rfl, .inl hexch, .inr (pyStarts_append _ _)⟩

/-- Claim C1 counterexample: on a fresh process whose connect attempt is
refused, `call_api` completes (returning the connection error string) after
zero exchanges, refuting "exactly one Transport exchange per call". -/
theorem C1_counterexample :
    (callApi "Gimp.get_images" [] [] cexSt1).1 = .ok ("Error: " ++ connectErrMsg) ∧
    (callApi "Gimp.get_images" [] [] cexSt1).2.exchanges = 0 := ⟨rfl, rfl⟩

/-- Claim C2 (corrected): `call_api` (and hence `get_images`) always returns a
string and never raises.  The same is not true of the convenience operations
(see the counterexample): a success payload without an `"id"` field makes
`get_image_info` raise a `KeyError` out of the tool. -/
theorem C2_tool_surface_total :
    (∀ (p : String) (a : List JVal) (k : List (String × JVal)) (st : St),
      ∃ s st1, callApi p a k st = (.ok s, st1)) ∧
    (∀ st : St, ∃ s st1, getImages st = (.ok s, st1)) :=
  ⟨callApi_ok, fun st => callApi_ok "Gimp.get_images" [] [] st⟩

/-- Claim C2 counterexample: with the remote replying
`{"status": "success", "result": {}}`, `get_image_info` raises a `KeyError`
(`str(e) = "'id'"`) instead of returning a string. -/
theorem C2_counterexample :
    (getImageInfo 1 cexSt2).1 = .error ⟨.keyError, "'id'"⟩ := rfl

/-- Claim C3 (corrected): with no handle stored, a failed connect attempt
raises the fixed `ConnectionError` but does NOT leave the state unchanged: the
dead unconnected socket object assigned before the connect attempt stays
stored (`sock = some .unconnected`, not `none`).  On success the connected
handle is stored. -/
theorem C3_connect_effect (st : St) (h : st.sock = none) :
    (∀ msg rest, st.env = .connectFail msg :: rest →
      GimpConnection.connect st = (.error ⟨.connectionError, connectErrMsg⟩,
        { st with sock := some .unconnected, env := rest, connects := st.connects + 1 })) ∧
    (st.env = [] →
      GimpConnection.connect st = (.error ⟨.connectionError, connectErrMsg⟩,
        { st with sock := some .unconnected, connects := st.connects + 1 })) ∧
    (∀ b rest, st.env = b :: rest → (∀ msg, b ≠ .connectFail msg) →
      GimpConnection.connect st = (.ok (),
        { st with sock := some (toSock b), env := rest, connects := st.connects + 1 })) := by
  refine ⟨?_, ?_, ?_⟩
  · intro msg rest henv
    rw [GimpConnection.connect, h, henv]
  · intro henv
    rw [GimpConnection.connect, h, henv]
  · intro b rest henv hnb
    rw [GimpConnection.connect, h, henv]
    cases b with
    | connectFail msg => exact absurd rfl (hnb msg)
    | sendFail msg => rfl
    | recvFail msg => rfl
    | reply bs => rfl

/-- Claim C3 witness: the corrected theorem applied to a concrete refused
connect and to a concrete successful connect. -/
theorem C3_witness :
    GimpConnection.connect witSt3 =
      (.error ⟨.connectionError, connectErrMsg⟩,
        ⟨false, some .unconnected, [], 1, 0, [], []⟩) ∧
    GimpConnection.connect witSt3b =
      (.ok (), ⟨false, some (.reply []), [], 1, 0, [], []⟩) :=
  ⟨(C3_connect_effect witSt3 rfl).1 "refused" [] rfl,
    (C3_connect_effect witSt3b rfl).2.2 (.reply []) [] rfl (fun _ hm => nomatch hm)⟩

/-- Claim C3 counterexample: after the failed connect a (dead) socket handle
IS stored — the handle attribute is not `none`, refuting "leaves the
Connection state unchanged (no handle stored)". -/
theorem C3_counterexample :
    (GimpConnection.connect cexSt3).2.sock = some SockState.unconnected ∧
    (GimpConnection.connect cexSt3).2.sock ≠ none := ⟨rfl, by decide⟩

/-- Claim C4 (corrected): every `send_command` invocation increments the
exchange count by one, and on return the stored handle is discarded
(`sock = none`) — EXCEPT when the implicit fresh connect itself fails, in
which case the call raises the `ConnectionError` and leaves the dead
unconnected handle stored; the next exchange then performs no fresh connect,
so the connect count can fall behind the exchange count (see the
counterexample). -/
theorem C4_handle_discard (ctype : String) (params : Option JVal) (st0 : St) :
    (sendCommand ctype params st0).2.exchanges = st0.exchanges + 1 ∧
    ((sendCommand ctype params st0).2.sock = none ∨
      ∃ e, (sendCommand ctype params st0).1 = .error e ∧ e.kind = .connectionError ∧
        (sendCommand ctype params st0).2.sock = some .unconnected) := by
  refine ⟨(sendCommand_traces ctype params st0).2, ?_⟩
  unfold sendCommand
  split
  · split
    · next e st1 heq =>
      obtain ⟨he, hs⟩ := connect_err heq
      exact .inr ⟨e, rfl, by rw [he], hs⟩
    · next u st1 heq =>
      obtain ⟨ss, hss⟩ := connect_ok_sock heq
      exact .inl (body_sock_some hss)
  · next ss hs =>
    exact .inl (body_sock_some hs)

/-- Claim C4 counterexample: a refused connect inside `send_command` leaves a
dead handle stored (not discarded), and after two exchanges only one fresh
connect was attempted — refuting both "the handle is discarded before the
call returns" and "connect attempts equal exchanges". -/
theorem C4_counterexample :
    (sendCommand "call_api" none cexSt4).2.sock = some SockState.unconnected ∧
    (sendCommand "call_api" none (sendCommand "call_api" none cexSt4).2).2.exchanges = 2 ∧
    (sendCommand "call_api" none (sendCommand "call_api" none cexSt4).2).2.connects = 1 :=
  ⟨rfl, rfl, rfl⟩

/-- Claim C5: fail-fast chaining — if the image lookup `call_api` returns a
string containing `"Error"`, both `get_image_info` and `apply_gaussian_blur`
return that exact string unchanged, and the total number of dispatcher calls
is one (the trace grew by exactly the single image-lookup entry). -/
theorem C5_fail_fast (imageId : Int) (radius : String) (st0 : St) (s : String) (st1 : St)
    (hc : callApi "Gimp.Image.get_by_id" [.int imageId] [] st0 = (.ok s, st1))
    (he : pyIn "Error" s = true) :
    getImageInfo imageId st0 = (.ok s, st1) ∧
    applyGaussianBlur imageId radius st0 = (.ok s, st1) ∧
    st1.apiCalls = st0.apiCalls ++ [⟨"Gimp.Image.get_by_id", [.int imageId], []⟩] := by
  refine ⟨gii_fail hc he, agb_fail hc he, ?_⟩
  have h2 : st1 = (callApi "Gimp.Image.get_by_id" [.int imageId] [] st0).2 := by rw [hc]
  rw [h2, callApi_apiCalls]

/-- Claim C5 witness: Scenario 2 — the remote reports `"no such image"` for
id 99; both operations return `"Error: \"no such image\""` after the single
lookup call. -/
theorem C5_witness :
    pyIn "Error" "Error: \"no such image\"" = true ∧
    getImageInfo 99 witSt5 = (.ok "Error: \"no such image\"", witSt5post) ∧
    applyGaussianBlur 99 "5.0" witSt5 = (.ok "Error: \"no such image\"", witSt5post) ∧
    witSt5post.apiCalls = [⟨"Gimp.Image.get_by_id", [.int 99], []⟩] := by
  have h := C5_fail_fast 99 "5.0" witSt5 "Error: \"no such image\"" witSt5post rfl rfl
  exact ⟨rfl, h.1, h.2.1, h.2.2⟩

/-- Claim C6: Scenario 3 — with id 1 resolving to `{"id": 1}` and the three
sub-calls succeeding with 800, 600 and `[0]`, `get_image_info(1)` returns the
JSON text `{"width": "800", "height": "600", "layers": "[0]"}` (each field the
literal string of the corresponding nested `call_api`), after four dispatcher
calls. -/
theorem C6_get_image_info_scenario :
    (getImageInfo 1 scnSt6).1 =
      .ok "\x7b\"width\": \"800\", \"height\": \"600\", \"layers\": \"[0]\"\x7d" ∧
    (getImageInfo 1 scnSt6).2.apiCalls.length = 4 ∧
    (getImageInfo 1 scnSt6).2.apiCalls.map (fun c => c.apiPath) =
      ["Gimp.Image.get_by_id", "Gimp.Image.get_width", "Gimp.Image.get_height",
        "Gimp.Image.get_layers"] := ⟨rfl, rfl, rfl⟩

/-- Claim C7: Scenario 4 — with every remote call succeeding,
`apply_gaussian_blur(5, 10.0)` returns exactly
`"Applied Gaussian blur successfully"`; the procedure-execution call's
positional arguments are `["plug-in-gauss", 5, 7, 10.0, 10.0, 0]` (drawable
id 7); and the flush call's outcome is not checked — with the flush exchange
failing instead, the returned string is the same. -/
theorem C7_gaussian_blur_scenario :
    (applyGaussianBlur 5 "10.0" scnSt7).1 = .ok "Applied Gaussian blur successfully" ∧
    (applyGaussianBlur 5 "10.0" scnSt7).2.apiCalls =
      [⟨"Gimp.Image.get_by_id", [.int 5], []⟩,
        ⟨"Gimp.Image.get_active_layer", [.int 5], []⟩,
        ⟨"Gimp.get_pdb.run_procedure",
          [.str "plug-in-gauss", .int 5, .int 7, .float "10.0", .float "10.0", .int 0], []⟩,
        ⟨"Gimp.displays_flush", [], []⟩] ∧
    (applyGaussianBlur 5 "10.0" scnSt7f).1 = .ok "Applied Gaussian blur successfully" :=
  ⟨rfl, rfl, rfl⟩

/-- Claim C8: codec round trip — encoding a command carrying an object
`params` to UTF-8 JSON bytes and decoding those bytes yields a mapping whose
`"params"` entry equals the original mapping (for any well-formed mapping). -/
theorem C8_codec_roundtrip (ctype : String) (fs : List (String × JVal))
    (hw : wfFields fs = true) :
    ∃ m, decodeReplyBytes (encodeCommand ctype (some (.obj fs))) = some (.obj m) ∧
      lookupLast m "params" = some (.obj fs) := by
  have hp : paramsOr (some (.obj fs)) = .obj fs := paramsOr_obj fs
  refine ⟨[("type", .str ctype), ("params", .obj fs)], ?_, rfl⟩
  have h := decode_encode ctype (some (.obj fs)) (by rw [hp, wfJ]; exact hw)
  rw [hp] at h
  exact h

/-- Claim C8 witness: the round trip at a concrete command and params
mapping. -/
theorem C8_witness :
    wfFields [("a", JVal.int 1)] = true ∧
    ∃ m, decodeReplyBytes (encodeCommand "call_api" (some (.obj [("a", JVal.int 1)]))) =
        some (.obj m) ∧ lookupLast m "params" = some (.obj [("a", JVal.int 1)]) :=
  ⟨rfl, C8_codec_roundtrip "call_api" [("a", JVal.int 1)] rfl⟩

/-- Claim C9 (corrected): reply decoding fails exactly when the bytes are not
valid UTF-8 or not valid JSON — the shape of the parsed value is NOT checked:
a reply that is not a mapping containing `"status"` still decodes successfully
(see the counterexample), refuting the "or parse to a value that is not a
mapping containing a status key" leg of the claim. -/
theorem C9_decode_failure_conditions (bs : List Nat) :
    decodeReplyBytes bs = none ↔
      utf8DecodeList bs = none ∨
        ∃ cs, utf8DecodeList bs = some cs ∧ jsonLoadsChars cs = none := by
  rw [decodeReplyBytes]
  cases h : utf8DecodeList bs with
  | none => simp [h]
  | some cs => simp [h]

/-- Claim C9 counterexample: the bytes of `"[1, 2]"` decode successfully to a
JSON array — a value that is not a mapping and contains no `"status"` key —
so decoding does not fail on non-mapping replies. -/
theorem C9_counterexample :
    decodeReplyBytes (utf8Encode "[1, 2]") = some (.arr [.int 1, .int 2]) ∧
    (∀ fs, JVal.arr [.int 1, .int 2] ≠ .obj fs) :=
  ⟨rfl, fun _ hm => nomatch hm⟩

/-- Claim C10: error detection in the convenience operations is by substring,
not prefix — any image-lookup reply string containing `"Error"` anywhere,
even one that does not start with `"Error: "` (a success payload merely
containing the word), is treated as a failure: it is returned verbatim and no
further dispatcher calls are issued. -/
theorem C10_substring_detection (imageId : Int) (radius : String) (st0 : St) (s : String)
    (st1 : St)
    (hc : callApi "Gimp.Image.get_by_id" [.int imageId] [] st0 = (.ok s, st1))
    (he : pyIn "Error" s = true) (_hnp : pyStarts "Error: " s = false) :
    getImageInfo imageId st0 = (.ok s, st1) ∧
    applyGaussianBlur imageId radius st0 = (.ok s, st1) ∧
    st1.apiCalls = st0.apiCalls ++ [⟨"Gimp.Image.get_by_id", [.int imageId], []⟩] := by
  refine ⟨gii_fail hc he, agb_fail hc he, ?_⟩
  have h2 : st1 = (callApi "Gimp.Image.get_by_id" [.int imageId] [] st0).2 := by rw [hc]
  rw [h2, callApi_apiCalls]

/-- Claim C10 witness: the remote succeeds with the string payload
`"An Error occurred"`; the returned lookup string `"\"An Error occurred\""`
contains `"Error"` but does not start with `"Error: "`, and both operations
return it verbatim after the single lookup call. -/
theorem C10_witness :
    pyIn "Error" "\"An Error occurred\"" = true ∧
    pyStarts "Error: " "\"An Error occurred\"" = false ∧
    getImageInfo 3 witSt10 = (.ok "\"An Error occurred\"", witSt10post) ∧
    applyGaussianBlur 3 "5.0" witSt10 = (.ok "\"An Error occurred\"", witSt10post) := by
  have h := C10_substring_detection 3 "5.0" witSt10 "\"An Error occurred\"" witSt10post
    rfl rfl rfl
  exact ⟨rfl, rfl, h.1, h.2.1⟩
